import Mathlib

/-!
Verification of the truce adjudicator core against its specification.

The definitions below are shallow embeddings of the Python source under
`apps/adjudicator/truce_adjudicator/`.  Python floats are modelled as
exact rationals (`ℚ`), machine text as Lean `String`/`List Char`,
UUIDs as natural numbers, and timestamps as integers (any linearly
ordered stand-in works for the comparisons the code performs).
-/

namespace Truce

/-! ## Panel aggregation (`panel/run_panel.py`) -/

/-- Python `round(x, 4)`: round to 4 decimal places, ties to even. -/
def roundHalfEven (q : ℚ) : ℤ :=
  let n : ℤ := ⌊q⌋
  let f : ℚ := q - n
  if f < 1/2 then n
  else if 1/2 < f then n + 1
  else if n % 2 = 0 then n else n + 1

/-- Round a rational to 4 decimals (Python `round(x, 4)`). -/
def round4 (q : ℚ) : ℚ := (roundHalfEven (q * 10000) : ℚ) / 10000

/-- `models.ArgumentWithEvidence` (pydantic): argument text, cited
evidence ids and a confidence.  The pydantic field constraints
(`min_length=20, max_length=2000`, `0 ≤ confidence ≤ 1`) are modelled
by the smart constructor `mkArgumentWithEvidence` below. -/
structure ArgumentWithEvidence where
  argument : String
  evidence_ids : List Nat
  confidence : ℚ
deriving Repr, DecidableEq

/-- `models.PanelModelVerdict`: one provider's dual-sided verdict. -/
structure PanelModelVerdict where
  provider_id : String
  model : String
  approval_argument : ArgumentWithEvidence
  refusal_argument : ArgumentWithEvidence
  failed : Bool
deriving Repr, DecidableEq

/-- `models.PanelVerdict` enumeration. -/
inductive PanelVerdict where
  | TRUE | FALSE | MIXED | UNKNOWN
deriving Repr, DecidableEq

/-- `models.PanelSummary`: aggregate of the panel. -/
structure PanelSummary where
  support_confidence : ℚ
  refute_confidence : ℚ
  model_count : Nat
  verdict : PanelVerdict
deriving Repr, DecidableEq

/-- The normalized approval share of one model inside `aggregate_panel`:
`approval/(approval+refusal)` when the total is positive, `0.5` otherwise
(source: the `total > 0` branch of the per-model loop). -/
def normalizedApproval (a r : ℚ) : ℚ :=
  if 0 < a + r then a / (a + r) else 1/2

/-- The normalized refusal share of one model inside `aggregate_panel`. -/
def normalizedRefusal (a r : ℚ) : ℚ :=
  if 0 < a + r then r / (a + r) else 1/2

/-- The verdict-derivation if-tree at the end of `aggregate_panel`
(`confidence_diff = abs(support - refute)` and the nested comparisons),
split out as a named helper. -/
def deriveVerdict (support refute : ℚ) : PanelVerdict :=
  let diff : ℚ := |support - refute|
  if refute < support then
    if 3/10 ≤ diff then .TRUE
    else if 1/10 ≤ diff then .MIXED
    else .UNKNOWN
  else if support < refute then
    if 3/10 ≤ diff then .FALSE
    else if 1/10 ≤ diff then .MIXED
    else .UNKNOWN
  else .MIXED

/-- `run_panel.aggregate_panel`: filter out failed verdicts, normalize
each remaining approval/refusal pair to sum to one, average the two
sides, round the stored confidences to 4 decimals, and derive the
discrete verdict from the (unrounded) averages. -/
def aggregate_panel (models : List PanelModelVerdict) : PanelSummary :=
  if models = [] then
    { support_confidence := 0, refute_confidence := 0,
      model_count := 0, verdict := .UNKNOWN }
  else
    let successful := models.filter (fun m => !m.failed)
    if successful = [] then
      { support_confidence := 0, refute_confidence := 0,
        model_count := 0, verdict := .UNKNOWN }
    else
      let supportTotal : ℚ := (successful.map (fun m =>
        normalizedApproval m.approval_argument.confidence m.refusal_argument.confidence)).sum
      let refuteTotal : ℚ := (successful.map (fun m =>
        normalizedRefusal m.approval_argument.confidence m.refusal_argument.confidence)).sum
      let support : ℚ := supportTotal / successful.length
      let refute : ℚ := refuteTotal / successful.length
      { support_confidence := round4 support,
        refute_confidence := round4 refute,
        model_count := successful.length,
        verdict := deriveVerdict support refute }

/-- All confidences of a verdict list are non-negative (guaranteed in the
source by the pydantic bound `ge=0.0` on `ArgumentWithEvidence.confidence`). -/
def ConfidencesNonneg (models : List PanelModelVerdict) : Prop :=
  ∀ m ∈ models, 0 ≤ m.approval_argument.confidence ∧ 0 ≤ m.refusal_argument.confidence

instance (models : List PanelModelVerdict) : Decidable (ConfidencesNonneg models) := by
  unfold ConfidencesNonneg; infer_instance

/-- Mean of a list of rationals (`sum/len`; `0` for the empty list). -/
def listMean (xs : List ℚ) : ℚ := xs.sum / xs.length

/-- The spec's wording of per-model normalization, approval side:
`a' = a/(a+r)`, and `0.5` when `a+r = 0`. -/
def specNormApproval (a r : ℚ) : ℚ := if a + r = 0 then 1/2 else a / (a + r)

/-- The spec's wording of per-model normalization, refusal side. -/
def specNormRefusal (a r : ℚ) : ℚ := if a + r = 0 then 1/2 else r / (a + r)

/-- The non-failed verdicts, in order (`aggregate_panel`'s filter). -/
def successfulOf (models : List PanelModelVerdict) : List PanelModelVerdict :=
  models.filter (fun m => !m.failed)

/-- Mean of the spec-normalized approval confidences over non-failed verdicts. -/
def panelSupportMean (models : List PanelModelVerdict) : ℚ :=
  listMean ((successfulOf models).map (fun m =>
    specNormApproval m.approval_argument.confidence m.refusal_argument.confidence))

/-- Mean of the spec-normalized refusal confidences over non-failed verdicts. -/
def panelRefuteMean (models : List PanelModelVerdict) : ℚ :=
  listMean ((successfulOf models).map (fun m =>
    specNormRefusal m.approval_argument.confidence m.refusal_argument.confidence))

lemma normalizedApproval_eq_spec (a r : ℚ) (ha : 0 ≤ a) (hr : 0 ≤ r) :
    normalizedApproval a r = specNormApproval a r := by
  unfold normalizedApproval specNormApproval
  rcases eq_or_lt_of_le (add_nonneg ha hr) with h | h
  · rw [if_neg (fun hc => absurd h.symm (ne_of_gt hc)), if_pos h.symm]
  · rw [if_pos h, if_neg (ne_of_gt h)]

lemma normalizedRefusal_eq_spec (a r : ℚ) (ha : 0 ≤ a) (hr : 0 ≤ r) :
    normalizedRefusal a r = specNormRefusal a r := by
  unfold normalizedRefusal specNormRefusal
  rcases eq_or_lt_of_le (add_nonneg ha hr) with h | h
  · rw [if_neg (fun hc => absurd h.symm (ne_of_gt hc)), if_pos h.symm]
  · rw [if_pos h, if_neg (ne_of_gt h)]

lemma normalized_pair_sum (a r : ℚ) : normalizedApproval a r + normalizedRefusal a r = 1 := by
  unfold normalizedApproval normalizedRefusal
  by_cases h : 0 < a + r
  · rw [if_pos h, if_pos h, div_add_div_same, div_self (ne_of_gt h)]
  · rw [if_neg h, if_neg h]; norm_num

lemma roundHalfEven_dist (q : ℚ) : |(roundHalfEven q : ℚ) - q| ≤ 1/2 := by
  unfold roundHalfEven
  have h0 : (0:ℚ) ≤ q - ⌊q⌋ := by
    have := Int.floor_le q; linarith
  have h1 : q - ⌊q⌋ < 1 := by
    have := Int.lt_floor_add_one q; linarith
  by_cases hlt : q - ⌊q⌋ < 1/2
  · simp only [if_pos hlt]
    rw [abs_le]; constructor <;> linarith
  · simp only [if_neg hlt]
    by_cases hgt : 1/2 < q - ⌊q⌋
    · simp only [if_pos hgt]
      rw [abs_le]; push_cast; constructor <;> linarith
    · simp only [if_neg hgt]
      have heq : q - ⌊q⌋ = 1/2 := le_antisymm (not_lt.mp hgt) (not_lt.mp hlt)
      by_cases hpar : (⌊q⌋ : ℤ) % 2 = 0
      · simp only [if_pos hpar]
        rw [abs_le]; constructor <;> linarith
      · simp only [if_neg hpar]
        rw [abs_le]; push_cast; constructor <;> linarith

lemma round4_dist (q : ℚ) : |round4 q - q| ≤ 1/20000 := by
  unfold round4
  have h := roundHalfEven_dist (q * 10000)
  have : (roundHalfEven (q * 10000) : ℚ) / 10000 - q
      = ((roundHalfEven (q * 10000) : ℚ) - q * 10000) / 10000 := by ring
  rw [this, abs_div]
  rw [show |(10000:ℚ)| = 10000 by norm_num]
  rw [div_le_iff₀ (by norm_num)]
  linarith

/-- Characterization of `aggregate_panel` when at least one verdict is
not failed: it unfolds to rounded means and the derived verdict. -/
lemma aggregate_panel_eq_of_ne (models : List PanelModelVerdict)
    (hne : successfulOf models ≠ []) :
    aggregate_panel models =
      { support_confidence := round4 (((successfulOf models).map (fun m =>
          normalizedApproval m.approval_argument.confidence m.refusal_argument.confidence)).sum
            / (successfulOf models).length),
        refute_confidence := round4 (((successfulOf models).map (fun m =>
          normalizedRefusal m.approval_argument.confidence m.refusal_argument.confidence)).sum
            / (successfulOf models).length),
        model_count := (successfulOf models).length,
        verdict := deriveVerdict
          (((successfulOf models).map (fun m =>
              normalizedApproval m.approval_argument.confidence m.refusal_argument.confidence)).sum
            / (successfulOf models).length)
          (((successfulOf models).map (fun m =>
              normalizedRefusal m.approval_argument.confidence m.refusal_argument.confidence)).sum
            / (successfulOf models).length) } := by
  have hm : models ≠ [] := by
    intro h; apply hne; rw [h]; rfl
  unfold aggregate_panel successfulOf
  rw [if_neg hm, if_neg (by unfold successfulOf at hne; exact hne)]

lemma successful_confidences_nonneg (models : List PanelModelVerdict)
    (hw : ConfidencesNonneg models) :
    ∀ m ∈ successfulOf models,
      0 ≤ m.approval_argument.confidence ∧ 0 ≤ m.refusal_argument.confidence := by
  intro m hm
  exact hw m (List.mem_of_mem_filter hm)

lemma successful_shares_eq_spec_support (models : List PanelModelVerdict)
    (hw : ConfidencesNonneg models) :
    (successfulOf models).map (fun m =>
        normalizedApproval m.approval_argument.confidence m.refusal_argument.confidence)
      = (successfulOf models).map (fun m =>
        specNormApproval m.approval_argument.confidence m.refusal_argument.confidence) := by
  apply List.map_congr_left
  intro m hm
  obtain ⟨ha, hr⟩ := successful_confidences_nonneg models hw m hm
  exact normalizedApproval_eq_spec _ _ ha hr

lemma successful_shares_eq_spec_refute (models : List PanelModelVerdict)
    (hw : ConfidencesNonneg models) :
    (successfulOf models).map (fun m =>
        normalizedRefusal m.approval_argument.confidence m.refusal_argument.confidence)
      = (successfulOf models).map (fun m =>
        specNormRefusal m.approval_argument.confidence m.refusal_argument.confidence) := by
  apply List.map_congr_left
  intro m hm
  obtain ⟨ha, hr⟩ := successful_confidences_nonneg models hw m hm
  exact normalizedRefusal_eq_spec _ _ ha hr

lemma panelSupportMean_eq (models : List PanelModelVerdict) :
    panelSupportMean models = ((successfulOf models).map (fun m =>
      specNormApproval m.approval_argument.confidence m.refusal_argument.confidence)).sum
        / (successfulOf models).length := by
  rw [panelSupportMean, listMean, List.length_map]

lemma panelRefuteMean_eq (models : List PanelModelVerdict) :
    panelRefuteMean models = ((successfulOf models).map (fun m =>
      specNormRefusal m.approval_argument.confidence m.refusal_argument.confidence)).sum
        / (successfulOf models).length := by
  rw [panelRefuteMean, listMean, List.length_map]

/-- Main shape lemma: with at least one non-failed verdict and valid
confidences, `aggregate_panel` stores the rounded spec-normalized means,
counts the non-failed verdicts, and derives the verdict from the
unrounded means. -/
lemma aggregate_panel_spec_shape (models : List PanelModelVerdict)
    (hw : ConfidencesNonneg models) (hne : successfulOf models ≠ []) :
    aggregate_panel models =
      { support_confidence := round4 (panelSupportMean models),
        refute_confidence := round4 (panelRefuteMean models),
        model_count := (successfulOf models).length,
        verdict := deriveVerdict (panelSupportMean models) (panelRefuteMean models) } := by
  rw [aggregate_panel_eq_of_ne models hne,
    successful_shares_eq_spec_support models hw,
    successful_shares_eq_spec_refute models hw,
    panelSupportMean_eq, panelRefuteMean_eq]

lemma aggregate_panel_empty_case (models : List PanelModelVerdict)
    (h : successfulOf models = []) :
    aggregate_panel models =
      { support_confidence := 0, refute_confidence := 0,
        model_count := 0, verdict := .UNKNOWN } := by
  unfold aggregate_panel
  by_cases hm : models = []
  · rw [if_pos hm]
  · rw [if_neg hm]
    unfold successfulOf at h
    rw [if_pos h]

lemma deriveVerdict_true (u v : ℚ) (hd : 3/10 ≤ |u - v|) (hlt : v < u) :
    deriveVerdict u v = .TRUE := by
  unfold deriveVerdict
  rw [if_pos hlt, if_pos hd]

lemma deriveVerdict_false (u v : ℚ) (hd : 3/10 ≤ |u - v|) (hlt : u < v) :
    deriveVerdict u v = .FALSE := by
  unfold deriveVerdict
  rw [if_neg (not_lt.mpr (le_of_lt hlt)), if_pos hlt, if_pos hd]

lemma deriveVerdict_mixed (u v : ℚ) (h1 : 1/10 ≤ |u - v|) (h3 : |u - v| < 3/10) :
    deriveVerdict u v = .MIXED := by
  unfold deriveVerdict
  rcases lt_trichotomy v u with hlt | heq | hgt
  · rw [if_pos hlt, if_neg (not_le.mpr h3), if_pos h1]
  · rw [if_neg (by rw [heq]; exact lt_irrefl u), if_neg (by rw [heq]; exact lt_irrefl u)]
  · rw [if_neg (not_lt.mpr (le_of_lt hgt)), if_pos hgt,
      if_neg (not_le.mpr h3), if_pos h1]

lemma deriveVerdict_unknown (u v : ℚ) (h0 : 0 < |u - v|) (h1 : |u - v| < 1/10) :
    deriveVerdict u v = .UNKNOWN := by
  unfold deriveVerdict
  have h3 : ¬ (3/10 : ℚ) ≤ |u - v| := not_le.mpr (by linarith)
  have h1n : ¬ (1/10 : ℚ) ≤ |u - v| := not_le.mpr h1
  rcases lt_trichotomy v u with hlt | heq | hgt
  · rw [if_pos hlt, if_neg h3, if_neg h1n]
  · exfalso; rw [heq] at h0; simp at h0
  · rw [if_neg (not_lt.mpr (le_of_lt hgt)), if_pos hgt, if_neg h3, if_neg h1n]

lemma deriveVerdict_tie (u : ℚ) : deriveVerdict u u = .MIXED := by
  unfold deriveVerdict
  rw [if_neg (lt_irrefl u), if_neg (lt_irrefl u)]

lemma shares_sum_eq_length (s : List PanelModelVerdict) :
    (s.map (fun m =>
        normalizedApproval m.approval_argument.confidence m.refusal_argument.confidence)).sum
      + (s.map (fun m =>
        normalizedRefusal m.approval_argument.confidence m.refusal_argument.confidence)).sum
      = (s.length : ℚ) := by
  induction s with
  | nil => simp
  | cons m t ih =>
    simp only [List.map_cons, List.sum_cons, List.length_cons]
    push_cast
    have := normalized_pair_sum m.approval_argument.confidence m.refusal_argument.confidence
    linarith

/-- C1: `aggregate_panel` excludes failed verdicts; each remaining pair
is normalized to `a/(a+r)`, `r/(a+r)` (both `0.5` when `a+r = 0`); the
stored confidences are the means of the normalized values rounded to 4
decimals; `model_count` is the number of non-failed verdicts; and an
empty or all-failed list gives `support = refute = 0`, `count = 0`,
`verdict = UNKNOWN`. -/
theorem claim_C1_aggregate_panel (models : List PanelModelVerdict)
    (hw : ConfidencesNonneg models) :
    (successfulOf models = [] →
      aggregate_panel models =
        { support_confidence := 0, refute_confidence := 0,
          model_count := 0, verdict := .UNKNOWN }) ∧
    (successfulOf models ≠ [] →
      (aggregate_panel models).support_confidence = round4 (panelSupportMean models) ∧
      (aggregate_panel models).refute_confidence = round4 (panelRefuteMean models) ∧
      (aggregate_panel models).model_count = (successfulOf models).length) := by
  refine ⟨aggregate_panel_empty_case models, fun hne => ?_⟩
  rw [aggregate_panel_spec_shape models hw hne]
  exact ⟨rfl, rfl, rfl⟩

/-- Concrete verdict list used by the aggregation witnesses. -/
def witnessVerdicts : List PanelModelVerdict :=
  [ { provider_id := "openai:gpt-4o", model := "gpt-4o",
      approval_argument := { argument := "approve", evidence_ids := [], confidence := mkRat 17 20 },
      refusal_argument := { argument := "refuse", evidence_ids := [], confidence := mkRat 3 20 },
      failed := false },
    { provider_id := "xai:grok-3", model := "grok-3",
      approval_argument := { argument := "approve", evidence_ids := [], confidence := mkRat 9 10 },
      refusal_argument := { argument := "refuse", evidence_ids := [], confidence := mkRat 1 10 },
      failed := false },
    { provider_id := "google:gemini", model := "gemini-2.0-flash-exp",
      approval_argument := { argument := "failed", evidence_ids := [], confidence := 0 },
      refusal_argument := { argument := "failed", evidence_ids := [], confidence := 0 },
      failed := true } ]

/-- Witness for C1 at a concrete three-verdict panel. -/
theorem claim_C1_witness :
    ConfidencesNonneg witnessVerdicts ∧
    ((successfulOf witnessVerdicts = [] →
      aggregate_panel witnessVerdicts =
        { support_confidence := 0, refute_confidence := 0,
          model_count := 0, verdict := .UNKNOWN }) ∧
    (successfulOf witnessVerdicts ≠ [] →
      (aggregate_panel witnessVerdicts).support_confidence = round4 (panelSupportMean witnessVerdicts) ∧
      (aggregate_panel witnessVerdicts).refute_confidence = round4 (panelRefuteMean witnessVerdicts) ∧
      (aggregate_panel witnessVerdicts).model_count = (successfulOf witnessVerdicts).length)) :=
  ⟨by decide, claim_C1_aggregate_panel witnessVerdicts (by decide)⟩

/-- C2 counterexample input: a single verdict with approval confidence
`0.64999` and refusal confidence `0.35001`. -/
def roundingEdgeVerdict : PanelModelVerdict :=
  { provider_id := "openai:gpt-4o", model := "gpt-4o",
    approval_argument := { argument := "approve", evidence_ids := [], confidence := 64999/100000 },
    refusal_argument := { argument := "refuse", evidence_ids := [], confidence := 35001/100000 },
    failed := false }

lemma round4_eq_of_frac_lt (q : ℚ) (n : ℤ) (hfl : ⌊q * 10000⌋ = n)
    (hlt : q * 10000 - n < 1/2) : round4 q = n / 10000 := by
  unfold round4 roundHalfEven
  simp only [hfl, if_pos hlt]

lemma round4_eq_of_half_lt (q : ℚ) (n : ℤ) (hfl : ⌊q * 10000⌋ = n)
    (hgt : 1/2 < q * 10000 - n) : round4 q = (n + 1) / 10000 := by
  unfold round4 roundHalfEven
  simp only [hfl, if_neg (not_lt.mpr (le_of_lt hgt)), if_pos hgt]
  push_cast
  ring

/-- C2 is false as stated: on the stored (rounded) `PanelSummary` fields
of this panel, `support = 0.65`, `refute = 0.35`, so `Δ = 0.30 ≥ 0.30`
and `support > refute`, yet the verdict is not TRUE (the code computes
MIXED from the unrounded means `0.64999` and `0.35001`). -/
theorem claim_C2_counterexample :
    3/10 ≤ |(aggregate_panel [roundingEdgeVerdict]).support_confidence
      - (aggregate_panel [roundingEdgeVerdict]).refute_confidence| ∧
    (aggregate_panel [roundingEdgeVerdict]).refute_confidence
      < (aggregate_panel [roundingEdgeVerdict]).support_confidence ∧
    (aggregate_panel [roundingEdgeVerdict]).verdict ≠ PanelVerdict.TRUE := by
  have hw : ConfidencesNonneg [roundingEdgeVerdict] := by
    intro m hm
    rw [List.mem_singleton] at hm
    subst hm
    exact ⟨by norm_num [roundingEdgeVerdict], by norm_num [roundingEdgeVerdict]⟩
  have hne : successfulOf [roundingEdgeVerdict] ≠ [] := by
    simp [successfulOf, roundingEdgeVerdict]
  rw [aggregate_panel_spec_shape _ hw hne]
  have hu : panelSupportMean [roundingEdgeVerdict] = 64999/100000 := by
    norm_num [panelSupportMean, listMean, successfulOf, roundingEdgeVerdict, specNormApproval]
  have hv : panelRefuteMean [roundingEdgeVerdict] = 35001/100000 := by
    norm_num [panelRefuteMean, listMean, successfulOf, roundingEdgeVerdict, specNormRefusal]
  have hr1 : round4 ((64999:ℚ)/100000) = 65/100 := by
    rw [round4_eq_of_half_lt ((64999:ℚ)/100000) 6499 ?_ ?_]
    · norm_num
    · rw [Int.floor_eq_iff]
      constructor <;> norm_num
    · norm_num
  have hr2 : round4 ((35001:ℚ)/100000) = 35/100 := by
    rw [round4_eq_of_frac_lt ((35001:ℚ)/100000) 3500 ?_ ?_]
    · norm_num
    · rw [Int.floor_eq_iff]
      constructor <;> norm_num
    · norm_num
  have hmix : deriveVerdict ((64999:ℚ)/100000) ((35001:ℚ)/100000) = .MIXED := by
    apply deriveVerdict_mixed
    · rw [abs_of_pos (by norm_num)]
      norm_num
    · rw [abs_of_pos (by norm_num)]
      norm_num
  simp only [hu, hv, hr1, hr2, hmix]
  refine ⟨?_, by norm_num, by simp⟩
  rw [abs_of_pos (by norm_num)]
  norm_num

/-- C2 (amended): the verdict thresholds are applied to the unrounded
means of the normalized confidences (not to the rounded stored fields):
with `u`/`v` the unrounded support/refute means and `Δ = |u - v|`,
`Δ ≥ 0.30` gives TRUE when `u > v` and FALSE when `v > u`;
`0.10 ≤ Δ < 0.30` gives MIXED; `0 < Δ < 0.10` gives UNKNOWN; and an
exact tie gives MIXED. -/
theorem claim_C2_verdict_thresholds (models : List PanelModelVerdict)
    (hw : ConfidencesNonneg models) (hne : successfulOf models ≠ []) :
    (3/10 ≤ |panelSupportMean models - panelRefuteMean models| →
      (panelRefuteMean models < panelSupportMean models →
        (aggregate_panel models).verdict = .TRUE) ∧
      (panelSupportMean models < panelRefuteMean models →
        (aggregate_panel models).verdict = .FALSE)) ∧
    (1/10 ≤ |panelSupportMean models - panelRefuteMean models| →
      |panelSupportMean models - panelRefuteMean models| < 3/10 →
      (aggregate_panel models).verdict = .MIXED) ∧
    (0 < |panelSupportMean models - panelRefuteMean models| →
      |panelSupportMean models - panelRefuteMean models| < 1/10 →
      (aggregate_panel models).verdict = .UNKNOWN) ∧
    (panelSupportMean models = panelRefuteMean models →
      (aggregate_panel models).verdict = .MIXED) := by
  rw [aggregate_panel_spec_shape models hw hne]
  refine ⟨fun hd => ⟨fun hlt => ?_, fun hlt => ?_⟩, fun h1 h3 => ?_, fun h0 h1 => ?_, fun heq => ?_⟩
  · exact deriveVerdict_true _ _ hd hlt
  · exact deriveVerdict_false _ _ hd hlt
  · exact deriveVerdict_mixed _ _ h1 h3
  · exact deriveVerdict_unknown _ _ h0 h1
  · rw [heq]; exact deriveVerdict_tie _

/-- Witness for the amended C2 at a concrete panel (strong support:
`u = 0.875`, `v = 0.125`, so `Δ = 0.75 ≥ 0.30` and the verdict is TRUE). -/
theorem claim_C2_witness :
    ConfidencesNonneg witnessVerdicts ∧ successfulOf witnessVerdicts ≠ [] ∧
    ((3/10 ≤ |panelSupportMean witnessVerdicts - panelRefuteMean witnessVerdicts| →
      (panelRefuteMean witnessVerdicts < panelSupportMean witnessVerdicts →
        (aggregate_panel witnessVerdicts).verdict = .TRUE) ∧
      (panelSupportMean witnessVerdicts < panelRefuteMean witnessVerdicts →
        (aggregate_panel witnessVerdicts).verdict = .FALSE)) ∧
    (1/10 ≤ |panelSupportMean witnessVerdicts - panelRefuteMean witnessVerdicts| →
      |panelSupportMean witnessVerdicts - panelRefuteMean witnessVerdicts| < 3/10 →
      (aggregate_panel witnessVerdicts).verdict = .MIXED) ∧
    (0 < |panelSupportMean witnessVerdicts - panelRefuteMean witnessVerdicts| →
      |panelSupportMean witnessVerdicts - panelRefuteMean witnessVerdicts| < 1/10 →
      (aggregate_panel witnessVerdicts).verdict = .UNKNOWN) ∧
    (panelSupportMean witnessVerdicts = panelRefuteMean witnessVerdicts →
      (aggregate_panel witnessVerdicts).verdict = .MIXED)) :=
  ⟨by decide, by decide, claim_C2_verdict_thresholds witnessVerdicts (by decide) (by decide)⟩

/-- C10: with at least one non-failed verdict, the stored support and
refute confidences sum to 1 up to the two 4-decimal roundings (within
`10^-4`), because each model's normalized pair sums to exactly 1. -/
theorem claim_C10_sum_close_to_one (models : List PanelModelVerdict)
    (hne : successfulOf models ≠ []) :
    |(aggregate_panel models).support_confidence
      + (aggregate_panel models).refute_confidence - 1| ≤ 1/10000 := by
  rw [aggregate_panel_eq_of_ne models hne]
  have hlen : ((successfulOf models).length : ℚ) ≠ 0 := by
    have : (successfulOf models).length ≠ 0 := by
      intro h; exact hne (List.length_eq_zero.mp h)
    exact_mod_cast this
  set A : ℚ := ((successfulOf models).map (fun m =>
    normalizedApproval m.approval_argument.confidence m.refusal_argument.confidence)).sum
      / (successfulOf models).length with hA
  set B : ℚ := ((successfulOf models).map (fun m =>
    normalizedRefusal m.approval_argument.confidence m.refusal_argument.confidence)).sum
      / (successfulOf models).length with hB
  have hsum : A + B = 1 := by
    rw [hA, hB, div_add_div_same, shares_sum_eq_length, div_self hlen]
  have h1 := round4_dist A
  have h2 := round4_dist B
  have : round4 A + round4 B - 1 = (round4 A - A) + (round4 B - B) + (A + B - 1) := by ring
  simp only [PanelSummary.mk.injEq]
  calc |round4 A + round4 B - 1|
      = |(round4 A - A) + (round4 B - B) + (A + B - 1)| := by rw [this]
    _ ≤ |round4 A - A| + |round4 B - B| + |A + B - 1| := abs_add_three _ _ _
    _ ≤ 1/20000 + 1/20000 + 0 := by
        rw [hsum]; simp only [sub_self, abs_zero]
        exact add_le_add (add_le_add h1 h2) le_rfl
    _ = 1/10000 := by norm_num

/-- Witness for C10 at a concrete panel. -/
theorem claim_C10_witness :
    successfulOf witnessVerdicts ≠ [] ∧
    |(aggregate_panel witnessVerdicts).support_confidence
      + (aggregate_panel witnessVerdicts).refute_confidence - 1| ≤ 1/10000 :=
  ⟨by decide, claim_C10_sum_close_to_one witnessVerdicts (by decide)⟩

/-! ## Evidence and the time-window filter (`verification.py`) -/

/-- `models.Evidence` (the fields the verified operations read).
Timestamps are modelled as integers, UUIDs as naturals.  The pydantic
`Optional[str]` fields `normalized_url`/`content_hash` are modelled as
`String` with `""` for `None`: every source-side check on them is a
Python truthiness test, which identifies `None` and `""`. -/
structure Evidence where
  id : Nat
  url : String
  publisher : String
  title : String
  snippet : String
  published_at : Option Int
  normalized_url : String
  content_hash : String
  provenance : String
deriving Repr, DecidableEq

/-- `verification.filter_evidence_by_time_window`: identity when both
bounds are absent, otherwise the loop keeps evidence with no publication
timestamp and skips (`continue`) evidence published strictly before
`start` or strictly after `end`. -/
def filter_evidence_by_time_window (evidence : List Evidence)
    (start stop : Option Int) : List Evidence :=
  if start.isNone && stop.isNone then evidence
  else
    evidence.filter fun item =>
      match item.published_at with
      | none => true
      | some published =>
        if (match start with | some s => decide (published < s) | none => false) then false
        else if (match stop with | some e => decide (e < published) | none => false) then false
        else true

/-- The spec's wording of the window predicate: evidence passes iff its
publication timestamp is null or lies within `[start, end]` inclusive,
each bound applied only when present. -/
def specInWindow (start stop : Option Int) (item : Evidence) : Bool :=
  match item.published_at with
  | none => true
  | some published =>
    (match start with | none => true | some s => decide (s ≤ published))
      && (match stop with | none => true | some e => decide (published ≤ e))

/-- C6: `filter_evidence_by_time_window` returns exactly the evidence
whose `published_at` is null or lies within the inclusive window (only
non-null bounds applied), preserving input order (it is a `filter` of
the input); with both bounds null it returns the list unchanged. -/
theorem claim_C6_time_window_filter (evidence : List Evidence)
    (start stop : Option Int) :
    filter_evidence_by_time_window evidence start stop
      = evidence.filter (specInWindow start stop) ∧
    (start = none → stop = none →
      filter_evidence_by_time_window evidence start stop = evidence) := by
  constructor
  · unfold filter_evidence_by_time_window
    by_cases hb : start.isNone && stop.isNone
    · rw [if_pos hb]
      obtain ⟨hs, he⟩ := Bool.and_eq_true_iff.mp hb
      rw [Option.isNone_iff_eq_none] at hs he
      subst hs; subst he
      refine (List.filter_eq_self.mpr ?_).symm
      intro item _
      unfold specInWindow
      cases item.published_at <;> simp
    · rw [if_neg hb]
      apply List.filter_congr
      intro item _
      unfold specInWindow
      cases hp : item.published_at with
      | none => rfl
      | some published =>
        cases start with
        | none =>
          cases stop with
          | none => simp
          | some e =>
            by_cases he : e < published
            · simp [he, show ¬(published ≤ e) from not_le.mpr he]
            · simp [he, not_lt.mp he]
        | some s =>
          cases stop with
          | none =>
            by_cases hs : published < s
            · simp [hs, show ¬(s ≤ published) from not_le.mpr hs]
            · simp [hs, not_lt.mp hs]
          | some e =>
            by_cases hs : published < s
            · simp [hs, show ¬(s ≤ published) from not_le.mpr hs]
            · by_cases he : e < published
              · simp [hs, he, not_lt.mp hs, show ¬(published ≤ e) from not_le.mpr he]
              · simp [hs, he, not_lt.mp hs, not_lt.mp he]
  · intro hs he
    subst hs; subst he
    unfold filter_evidence_by_time_window
    rfl

/-! ## Domain diversity (`mcp/explorer.py`, `_enforce_domain_diversity`) -/

/-- `mcp/explorer.ExplorerSource`. -/
structure ExplorerSource where
  title : String
  url : String
  snippet : String
  publisher : String
  domain : String
  published_at : Option Int
  normalized_url : String
  content_hash : String
deriving Repr, DecidableEq

/-- The `for source in sources` loop of `_enforce_domain_diversity`:
`counts` is the `domain_counts` dict (default 0), `selLen` the current
`len(selected)`; a source whose domain already reached `maxPer` is
skipped, otherwise it is selected and the loop breaks once `target`
sources are selected. -/
def diversityLoop (maxPer : Int) (target : Nat) :
    List ExplorerSource → (String → Nat) → Nat → List ExplorerSource
  | [], _, _ => []
  | s :: rest, counts, selLen =>
    let c := counts s.domain
    if maxPer ≤ (c : Int) then diversityLoop maxPer target rest counts selLen
    else
      if target ≤ selLen + 1 then [s]
      else s :: diversityLoop maxPer target rest
        (fun d => if d = s.domain then c + 1 else counts d) (selLen + 1)

/-- `mcp/explorer.ExplorerAgent._enforce_domain_diversity` with the
instance attribute `domain_share` passed explicitly:
`max_per_domain = max(1, floor(target_count * domain_share))`, then the
selection loop. -/
def enforce_domain_diversity (domain_share : ℚ)
    (sources : List ExplorerSource) (target_count : Nat) : List ExplorerSource :=
  if sources = [] then []
  else diversityLoop (max 1 ⌊(target_count : ℚ) * domain_share⌋) target_count
    sources (fun _ => 0) 0

/-- Number of sources of a given domain in a list. -/
def countDomain (d : String) (l : List ExplorerSource) : Nat :=
  (l.filter (fun s => s.domain = d)).length

/-- Concrete source used in the C7 counterexample and witness. -/
def mkSource (dom : String) (u : String) : ExplorerSource :=
  { title := "t", url := u, snippet := "s", publisher := "p",
    domain := dom, published_at := none,
    normalized_url := u, content_hash := u }

/-- C7 is false as stated for target count 0: the loop appends a source
before checking the break condition, so the output has one source even
though the claim bounds the output length by `N = 0`. -/
theorem claim_C7_counterexample :
    0 < (enforce_domain_diversity (mkRat 1 4) [mkSource "same.com" "https://same.com/a"] 0).length := by
  have hfl : ⌊((0 : Nat) : ℚ) * mkRat 1 4⌋ = 0 := by norm_num
  unfold enforce_domain_diversity
  rw [if_neg (by simp)]
  unfold diversityLoop
  rw [hfl]
  norm_num

lemma diversityLoop_length_le (maxPer : Int) (target : Nat) :
    ∀ (srcs : List ExplorerSource) (counts : String → Nat) (selLen : Nat),
      selLen < target →
      (diversityLoop maxPer target srcs counts selLen).length + selLen ≤ target := by
  intro srcs
  induction srcs with
  | nil =>
    intro counts selLen h
    simp only [diversityLoop, List.length_nil, Nat.zero_add]
    omega
  | cons s rest ih =>
    intro counts selLen h
    unfold diversityLoop
    by_cases hc : maxPer ≤ ((counts s.domain : Nat) : Int)
    · rw [if_pos hc]; exact ih counts selLen h
    · rw [if_neg hc]
      by_cases hb : target ≤ selLen + 1
      · rw [if_pos hb]
        simp only [List.length_singleton]
        omega
      · rw [if_neg hb]
        have := ih (fun d => if d = s.domain then counts s.domain + 1 else counts d)
          (selLen + 1) (lt_of_not_le hb)
        simp only [List.length_cons]
        omega

lemma diversityLoop_count_le (maxPer : Int) (target : Nat) (d : String) :
    ∀ (srcs : List ExplorerSource) (counts : String → Nat) (selLen : Nat),
      (countDomain d (diversityLoop maxPer target srcs counts selLen) : Int) + counts d
        ≤ max maxPer (counts d) := by
  intro srcs
  induction srcs with
  | nil =>
    intro counts selLen
    simp [countDomain, diversityLoop]
  | cons s rest ih =>
    intro counts selLen
    unfold diversityLoop
    by_cases hc : maxPer ≤ ((counts s.domain : Nat) : Int)
    · rw [if_pos hc]; exact ih counts selLen
    · rw [if_neg hc]
      by_cases hd : s.domain = d
      · subst hd
        by_cases hb : target ≤ selLen + 1
        · rw [if_pos hb]
          have : countDomain s.domain [s] = 1 := by simp [countDomain]
          rw [this]
          push_cast
          rw [max_eq_left (le_of_lt (lt_of_not_le hc))] at *
          omega
        · rw [if_neg hb]
          have hcnt : countDomain s.domain (s :: diversityLoop maxPer target rest
              (fun x => if x = s.domain then counts s.domain + 1 else counts x) (selLen + 1))
              = countDomain s.domain (diversityLoop maxPer target rest
                (fun x => if x = s.domain then counts s.domain + 1 else counts x) (selLen + 1)) + 1 := by
            simp [countDomain]
          rw [hcnt]
          have := ih (fun x => if x = s.domain then counts s.domain + 1 else counts x) (selLen + 1)
          simp only [if_pos rfl] at this
          have hle : ((counts s.domain : Nat) : Int) + 1 ≤ maxPer := by omega
          rw [max_eq_left (le_trans (by push_cast; omega) hle)] at this
          rw [max_eq_left (le_of_lt (lt_of_not_le hc))]
          push_cast at this ⊢
          omega
      · by_cases hb : target ≤ selLen + 1
        · rw [if_pos hb]
          have : countDomain d [s] = 0 := by
            simp [countDomain, List.filter, hd]
          rw [this]
          simp
        · rw [if_neg hb]
          have hcnt : countDomain d (s :: diversityLoop maxPer target rest
              (fun x => if x = s.domain then counts s.domain + 1 else counts x) (selLen + 1))
              = countDomain d (diversityLoop maxPer target rest
                (fun x => if x = s.domain then counts s.domain + 1 else counts x) (selLen + 1)) := by
            simp [countDomain, List.filter, hd]
          rw [hcnt]
          have := ih (fun x => if x = s.domain then counts s.domain + 1 else counts x) (selLen + 1)
          have hne : d ≠ s.domain := fun h => hd h.symm
          simp only [if_neg hne] at this
          exact this

lemma diversityLoop_sublist (maxPer : Int) (target : Nat) :
    ∀ (srcs : List ExplorerSource) (counts : String → Nat) (selLen : Nat),
      (diversityLoop maxPer target srcs counts selLen).Sublist srcs := by
  intro srcs
  induction srcs with
  | nil => intro counts selLen; simp [diversityLoop]
  | cons s rest ih =>
    intro counts selLen
    unfold diversityLoop
    by_cases hc : maxPer ≤ ((counts s.domain : Nat) : Int)
    · rw [if_pos hc]
      exact (ih counts selLen).trans (List.sublist_cons_self s rest)
    · rw [if_neg hc]
      by_cases hb : target ≤ selLen + 1
      · rw [if_pos hb]
        exact (List.nil_sublist rest).cons₂ s
      · rw [if_neg hb]
        exact (ih _ (selLen + 1)).cons₂ s

/-- C7 (amended): for every source list, target count `N ≥ 1` and domain
share `s`, the enforcement outputs at most `N` sources, no domain
contributes more than `max(1, floor(N*s))` of them, and the output is a
sublist of the input (sources are selected in input order, earlier ones
first). The bound fails for `N = 0`, where one source is still emitted. -/
theorem claim_C7_domain_diversity (domain_share : ℚ)
    (sources : List ExplorerSource) (target_count : Nat)
    (hN : 1 ≤ target_count) :
    (enforce_domain_diversity domain_share sources target_count).length ≤ target_count ∧
    (∀ d : String,
      (countDomain d (enforce_domain_diversity domain_share sources target_count) : Int)
        ≤ max 1 ⌊(target_count : ℚ) * domain_share⌋) ∧
    (enforce_domain_diversity domain_share sources target_count).Sublist sources := by
  unfold enforce_domain_diversity
  by_cases hs : sources = []
  · rw [if_pos hs]
    refine ⟨by simp, fun d => ?_, by simp⟩
    have : countDomain d [] = 0 := rfl
    rw [this]
    have : (1 : Int) ≤ max 1 ⌊(target_count : ℚ) * domain_share⌋ := le_max_left _ _
    push_cast
    omega
  · rw [if_neg hs]
    refine ⟨?_, fun d => ?_, diversityLoop_sublist _ _ _ _ _⟩
    · have := diversityLoop_length_le (max 1 ⌊(target_count : ℚ) * domain_share⌋)
        target_count sources (fun _ => 0) 0 (by omega)
      omega
    · have := diversityLoop_count_le (max 1 ⌊(target_count : ℚ) * domain_share⌋)
        target_count d sources (fun _ => 0) 0
      simpa using this

/-- Witness for the amended C7: nine sources, six from one domain, with
target 6 and share 0.4 (the spec's S9 scenario). -/
theorem claim_C7_witness :
    1 ≤ 6 ∧
    ((enforce_domain_diversity (mkRat 2 5) (List.replicate 6 (mkSource "same.com" "https://same.com/a")
        ++ [mkSource "other1.com" "https://other1.com/a",
            mkSource "other2.com" "https://other2.com/a",
            mkSource "other3.com" "https://other3.com/a"]) 6).length ≤ 6 ∧
    (∀ d : String,
      (countDomain d (enforce_domain_diversity (mkRat 2 5)
          (List.replicate 6 (mkSource "same.com" "https://same.com/a")
            ++ [mkSource "other1.com" "https://other1.com/a",
                mkSource "other2.com" "https://other2.com/a",
                mkSource "other3.com" "https://other3.com/a"]) 6) : Int)
        ≤ max 1 ⌊((6 : Nat) : ℚ) * mkRat 2 5⌋) ∧
    (enforce_domain_diversity (mkRat 2 5) (List.replicate 6 (mkSource "same.com" "https://same.com/a")
        ++ [mkSource "other1.com" "https://other1.com/a",
            mkSource "other2.com" "https://other2.com/a",
            mkSource "other3.com" "https://other3.com/a"]) 6).Sublist
      (List.replicate 6 (mkSource "same.com" "https://same.com/a")
        ++ [mkSource "other1.com" "https://other1.com/a",
            mkSource "other2.com" "https://other2.com/a",
            mkSource "other3.com" "https://other3.com/a"])) :=
  ⟨by decide, claim_C7_domain_diversity (mkRat 2 5) _ 6 (by decide)⟩

/-! ## URL normalization (`mcp/explorer.py`, `normalize_url`)

`normalize_url` is built on CPython's `urllib.parse` (3.11).  The
functions below embed the relevant `urllib.parse` routines at the
`List Char` level.  Deviations, each irrelevant to ASCII inputs, are
noted in the doc comments: Unicode-wide `str.lower` is modelled as
ASCII lowercasing, and `_checknetloc`'s NFKC check on non-ASCII
netlocs is modelled as a parse failure. -/

namespace UrlPy

/-- Python `str.lower` restricted to ASCII (the full Unicode case map is
not reproduced; every string this development evaluates is ASCII). -/
def lowerChar (c : Char) : Char :=
  if 'A' ≤ c ∧ c ≤ 'Z' then Char.ofNat (c.toNat + 32) else c

def isAsciiAlpha (c : Char) : Bool :=
  ('a' ≤ c && c ≤ 'z') || ('A' ≤ c && c ≤ 'Z')

def isAsciiDigit (c : Char) : Bool := '0' ≤ c && c ≤ '9'

/-- `urllib.parse.scheme_chars`: ASCII letters, digits, `+`, `-`, `.`. -/
def isSchemeChar (c : Char) : Bool :=
  isAsciiAlpha c || isAsciiDigit c || c = '+' || c = '-' || c = '.'

def hexVal (c : Char) : Option Nat :=
  if '0' ≤ c ∧ c ≤ '9' then some (c.toNat - '0'.toNat)
  else if 'a' ≤ c ∧ c ≤ 'f' then some (c.toNat - 'a'.toNat + 10)
  else if 'A' ≤ c ∧ c ≤ 'F' then some (c.toNat - 'A'.toNat + 10)
  else none

/-- First index at or after `start` where `p` holds. -/
def findIdxFrom (p : Char → Bool) (start : Nat) (l : List Char) : Option Nat :=
  ((l.drop start).findIdx? p).map (· + start)

/-- Python `s.partition(c)`: `(before, found, after)`. -/
def partitionChar (c : Char) (l : List Char) : List Char × Bool × List Char :=
  match l.findIdx? (· = c) with
  | none => (l, false, [])
  | some i => (l.take i, true, l.drop (i + 1))

/-- Python `s.rpartition(c)`: split at the last occurrence. -/
def rpartitionChar (c : Char) (l : List Char) : List Char × Bool × List Char :=
  match (l.reverse.findIdx? (· = c)) with
  | none => ([], false, l)
  | some j =>
    let i := l.length - 1 - j
    (l.take i, true, l.drop (i + 1))

/-- Python `s.split(sep, 1)` when `sep` occurs, as `(head, some tail)`. -/
def splitOnce (c : Char) (l : List Char) : List Char × Option (List Char) :=
  match l.findIdx? (· = c) with
  | none => (l, none)
  | some i => (l.take i, some (l.drop (i + 1)))

/-- U+FFFD, the replacement character. -/
def replChar : Char := Char.ofNat 0xFFFD

def isCont (b : Nat) : Bool := 0x80 ≤ b && b ≤ 0xBF

/-- One step of CPython's UTF-8 decoder with `errors="replace"`:
given a lead byte and the remaining bytes, produce the decoded scalar
(or U+FFFD for the maximal subpart of an ill-formed sequence) and the
not-yet-consumed remainder. -/
def utf8Step (b : Nat) (rest : List Nat) : Char × List Nat :=
  if b ≤ 0x7F then (Char.ofNat b, rest)
  else if 0xC2 ≤ b && b ≤ 0xDF then
    match rest with
    | [] => (replChar, [])
    | b1 :: rest1 =>
      if isCont b1 then (Char.ofNat ((b % 0x20) * 0x40 + b1 % 0x40), rest1)
      else (replChar, b1 :: rest1)
  else if 0xE0 ≤ b && b ≤ 0xEF then
    let lo1 : Nat := if b = 0xE0 then 0xA0 else 0x80
    let hi1 : Nat := if b = 0xED then 0x9F else 0xBF
    match rest with
    | [] => (replChar, [])
    | b1 :: rest1 =>
      if lo1 ≤ b1 && b1 ≤ hi1 then
        match rest1 with
        | [] => (replChar, [])
        | b2 :: rest2 =>
          if isCont b2 then
            (Char.ofNat ((b % 0x10) * 0x1000 + (b1 % 0x40) * 0x40 + b2 % 0x40), rest2)
          else (replChar, b2 :: rest2)
      else (replChar, b1 :: rest1)
  else if 0xF0 ≤ b && b ≤ 0xF4 then
    let lo1 : Nat := if b = 0xF0 then 0x90 else 0x80
    let hi1 : Nat := if b = 0xF4 then 0x8F else 0xBF
    match rest with
    | [] => (replChar, [])
    | b1 :: rest1 =>
      if lo1 ≤ b1 && b1 ≤ hi1 then
        match rest1 with
        | [] => (replChar, [])
        | b2 :: rest2 =>
          if isCont b2 then
            match rest2 with
            | [] => (replChar, [])
            | b3 :: rest3 =>
              if isCont b3 then
                (Char.ofNat ((b % 0x8) * 0x40000 + (b1 % 0x40) * 0x1000
                  + (b2 % 0x40) * 0x40 + b3 % 0x40), rest3)
              else (replChar, b3 :: rest3)
          else (replChar, b2 :: rest2)
      else (replChar, b1 :: rest1)
  else (replChar, rest)

/-- Fuelled driver for the UTF-8 decoder; `utf8Step` consumes at least
the lead byte per emitted character, so fuel equal to the byte count is
always sufficient. -/
def utf8DecodeGo : Nat → List Nat → List Char
  | 0, _ => []
  | _, [] => []
  | fuel + 1, b :: rest =>
    let step := utf8Step b rest
    step.1 :: utf8DecodeGo fuel step.2

/-- CPython `bytes.decode("utf-8", errors="replace")`: strict UTF-8
(overlongs, surrogates and values above U+10FFFF rejected) with one
replacement character per maximal subpart of an ill-formed sequence. -/
def utf8DecodeReplace (l : List Nat) : List Char := utf8DecodeGo l.length l

/-- UTF-8 encoding of one scalar value (Python `str.encode("utf-8")`). -/
def utf8Encode (c : Char) : List Nat :=
  let n := c.toNat
  if n ≤ 0x7F then [n]
  else if n ≤ 0x7FF then [0xC0 + n / 0x40, 0x80 + n % 0x40]
  else if n ≤ 0xFFFF then
    [0xE0 + n / 0x1000, 0x80 + (n / 0x40) % 0x40, 0x80 + n % 0x40]
  else
    [0xF0 + n / 0x40000, 0x80 + (n / 0x1000) % 0x40,
     0x80 + (n / 0x40) % 0x40, 0x80 + n % 0x40]

/-- The loop of `urllib.parse.unquote` / `unquote_to_bytes` (defaults
`encoding="utf-8"`, `errors="replace"`): percent pairs and ASCII
characters accumulate as bytes (decoded per maximal ASCII run), other
characters pass through; `%` not followed by two hex digits is literal. -/
def unquoteGo : List Char → List Nat → List Char
  | [], buf => utf8DecodeReplace buf.reverse
  | '%' :: h1 :: h2 :: rest, buf =>
    match hexVal h1, hexVal h2 with
    | some v1, some v2 => unquoteGo rest ((v1 * 16 + v2) :: buf)
    | _, _ => unquoteGo (h1 :: h2 :: rest) ('%'.toNat :: buf)
  | c :: rest, buf =>
    if c.toNat ≤ 0x7F then unquoteGo rest (c.toNat :: buf)
    else utf8DecodeReplace buf.reverse ++ c :: unquoteGo rest []

/-- `urllib.parse.unquote` with default arguments. -/
def unquote (s : List Char) : List Char :=
  if '%' ∈ s then unquoteGo s [] else s

/-- `urllib.parse._ALWAYS_SAFE` as a byte predicate: ASCII alphanumerics
and `_.-~`. -/
def isAlwaysSafeByte (b : Nat) : Bool :=
  (0x61 ≤ b && b ≤ 0x7A) || (0x41 ≤ b && b ≤ 0x5A) || (0x30 ≤ b && b ≤ 0x39)
    || b = '_'.toNat || b = '.'.toNat || b = '-'.toNat || b = '~'.toNat

def hexDigitUpper (n : Nat) : Char :=
  if n < 10 then Char.ofNat ('0'.toNat + n) else Char.ofNat ('A'.toNat + n - 10)

/-- `urllib.parse.quote` (via `quote_from_bytes`): UTF-8 encode, keep
always-safe bytes and ASCII `safe` bytes, percent-encode the rest with
uppercase hex. -/
def quote (s : List Char) (safe : List Char) : List Char :=
  if s = [] then [] else
  let bytes := s.flatMap utf8Encode
  let safeBytes := (safe.map Char.toNat).filter (· < 128)
  if bytes.all (fun b => isAlwaysSafeByte b || b ∈ safeBytes) then s
  else bytes.flatMap (fun b =>
    if isAlwaysSafeByte b || b ∈ safeBytes then [Char.ofNat b]
    else ['%', hexDigitUpper (b / 16), hexDigitUpper (b % 16)])

/-- `urllib.parse.quote_plus` with `safe=""`. -/
def quote_plus (s : List Char) : List Char :=
  if ' ' ∉ s then quote s []
  else (quote s [' ']).map (fun c => if c = ' ' then '+' else c)

/-- `urllib.parse.parse_qsl` with default arguments: split on `&`,
drop empty chunks, drop chunks without `=` or with an empty value,
`+` → space then percent-decode on both sides. -/
def parse_qsl (qs : List Char) : List (List Char × List Char) :=
  if qs = [] then []
  else (qs.splitOn '&').filterMap fun nv =>
    if nv = [] then none
    else match splitOnce '=' nv with
      | (_, none) => none
      | (name, some value) =>
        if value = [] then none
        else some
          (unquote (name.map (fun c => if c = '+' then ' ' else c)),
           unquote (value.map (fun c => if c = '+' then ' ' else c)))

/-- `urllib.parse.urlencode` on a list of string pairs with default
arguments (`quote_via=quote_plus`, `safe=""`). -/
def urlencode (pairs : List (List Char × List Char)) : List Char :=
  (pairs.map (fun kv => quote_plus kv.1 ++ '=' :: quote_plus kv.2)).intersperse ['&'] |>.flatten

/-- Python `str` `<`: lexicographic comparison by code points. -/
def strLt : List Char → List Char → Bool
  | [], [] => false
  | [], _ :: _ => true
  | _ :: _, [] => false
  | a :: as, b :: bs =>
    if a < b then true
    else if b < a then false
    else strLt as bs

/-- Python tuple `<=` on pairs of strings: lexicographic by code points,
first component then second (the order used by `sorted`). -/
def pairLe (a b : List Char × List Char) : Bool :=
  strLt a.1 b.1 || (a.1 = b.1 && (strLt a.2 b.2 || a.2 = b.2))

/-- Stable insertion of `x` after every already-placed element `y` with
`le y x`. -/
def insertSorted (le : α → α → Bool) (x : α) : List α → List α
  | [] => [x]
  | y :: ys => if le y x then y :: insertSorted le x ys else x :: y :: ys

/-- Python `sorted`: a stable ascending sort (any stable sort computes
the same list, so insertion from the left models `sorted` exactly). -/
def stableSort (le : α → α → Bool) (l : List α) : List α :=
  l.foldl (fun acc x => insertSorted le x acc) []

/-- `sorted(query_pairs)` in `normalize_url`. -/
def sortPairs (pairs : List (List Char × List Char)) : List (List Char × List Char) :=
  stableSort pairLe pairs

/-- `urlsplit`'s WHATWG sanitization: strip leading C0 controls and
spaces. -/
def lstripControlOrSpace (l : List Char) : List Char :=
  l.dropWhile (fun c => c.toNat ≤ 0x20)

/-- `urlsplit`'s removal of `_UNSAFE_URL_BYTES_TO_REMOVE` (tab, CR, LF). -/
def removeUnsafe (l : List Char) : List Char :=
  l.filter (fun c => c ≠ '\t' && c ≠ '\r' && c ≠ '\n')

/-- `urllib.parse.SplitResult` (string fields only). -/
structure SplitResult where
  scheme : List Char
  netloc : List Char
  path : List Char
  query : List Char
  fragment : List Char
deriving Repr, DecidableEq

/-- `urllib.parse.ParseResult` (string fields only). -/
structure ParseResult where
  scheme : List Char
  netloc : List Char
  path : List Char
  params : List Char
  query : List Char
  fragment : List Char
deriving Repr, DecidableEq

def natOfDigits (s : List Char) : Nat :=
  s.foldl (fun acc c => acc * 10 + (c.toNat - '0'.toNat)) 0

/-- `ipaddress._IPv4Constants`-style octet check: 1-3 ASCII digits, no
leading zero (unless the octet is exactly `0`), value at most 255. -/
def isValidIPv4Octet (s : List Char) : Bool :=
  s ≠ [] && s.length ≤ 3 && s.all isAsciiDigit
    && (s.length = 1 || s.head? ≠ some '0') && natOfDigits s ≤ 255

/-- `ipaddress.IPv4Address` validity: four dot-separated octets. -/
def isValidIPv4 (s : List Char) : Bool :=
  match s.splitOn '.' with
  | [a, b, c, d] =>
    isValidIPv4Octet a && isValidIPv4Octet b && isValidIPv4Octet c && isValidIPv4Octet d
  | _ => false

/-- An IPv6 hextet: 1-4 hex digits. -/
def isHextet (s : List Char) : Bool :=
  s ≠ [] && s.length ≤ 4 && s.all (fun c => (hexVal c).isSome)

/-- `ipaddress.IPv6Address._ip_int_from_string` as a validity predicate:
split on `:`, optionally convert a trailing dotted-quad into two
hextets, allow one `::` (with leading/trailing `:` only as part of it),
and require 8 hextets exactly when no `::` is present. -/
def ipv6AddrOk (addr : List Char) : Bool :=
  let parts0 := addr.splitOn ':'
  if parts0.length < 3 then false
  else
    let lastHasDot := match parts0.getLast? with | some last => '.' ∈ last | none => false
    let lastIPv4 := match parts0.getLast? with | some last => isValidIPv4 last | none => false
    if lastHasDot && !lastIPv4 then false
    else
      let parts := if lastHasDot then parts0.dropLast ++ [['0'], ['0']] else parts0
      if 9 < parts.length then false
      else
        let n := parts.length
        let inner := (parts.drop 1).dropLast
        match inner.findIdx? (· = ([] : List Char)) with
        | some i =>
          if 1 < inner.countP (· = ([] : List Char)) then false
          else
            let skip := i + 1
            let firstEmpty := parts.head? = some ([] : List Char)
            let lastEmpty := parts.getLast? = some ([] : List Char)
            let partsHi := if firstEmpty then skip - 1 else skip
            let partsLo := if lastEmpty then n - skip - 2 else n - skip - 1
            if firstEmpty ∧ partsHi ≠ 0 then false
            else if lastEmpty ∧ partsLo ≠ 0 then false
            else if 8 ≤ partsHi + partsLo then false
            else ((parts.take partsHi) ++ (parts.drop (n - partsLo))).all isHextet
        | none =>
          n = 8 && parts.head? ≠ some ([] : List Char)
            && parts.getLast? ≠ some ([] : List Char) && parts.all isHextet

/-- `ipaddress.IPv6Address` validity including an optional `%zone`
suffix (non-empty, containing no further `%`). -/
def isValidIPv6Full (s : List Char) : Bool :=
  let (addr, sep, zone) := partitionChar '%' s
  if sep && (zone = [] || '%' ∈ zone) then false
  else ipv6AddrOk addr

/-- `urllib.parse._check_bracketed_host`: hosts starting with `v` must
match `v[hex]+\..+`; anything else must be a valid IPv6 address (a
bracketed IPv4 address raises). -/
def checkBracketedHost (host : List Char) : Bool :=
  match host with
  | 'v' :: rest =>
    let hexRun := rest.takeWhile (fun c => (hexVal c).isSome)
    hexRun ≠ [] && (rest.drop hexRun.length).head? = some '.'
      && (rest.drop (hexRun.length + 1)) ≠ []
      && '\n' ∉ rest.drop (hexRun.length + 1)
  | _ => isValidIPv6Full host

/-- `urllib.parse.urlsplit` (CPython 3.11, defaults): sanitize, detect
the scheme, split off `//netloc` (validating brackets and bracketed
hosts), then fragment and query.  `none` models the `ValueError`
raises.  Deviation: `_checknetloc`'s NFKC confusable check is modelled
by rejecting non-ASCII netlocs outright (for ASCII netlocs the check
always passes, and every input evaluated here is ASCII). -/
def urlsplitE (url0 : List Char) : Option SplitResult :=
  let url1 := removeUnsafe (lstripControlOrSpace url0)
  let schemeAndRest : List Char × List Char :=
    match url1.findIdx? (· = ':') with
    | some i =>
      if decide (0 < i)
          && (match url1.head? with | some c => isAsciiAlpha c | none => false)
          && (url1.take i).all isSchemeChar
      then ((url1.take i).map lowerChar, url1.drop (i + 1))
      else ([], url1)
    | none => ([], url1)
  let scheme := schemeAndRest.1
  let url2 := schemeAndRest.2
  let netlocSplit : Option (List Char × List Char) :=
    if url2.take 2 = ['/', '/'] then
      let after := url2.drop 2
      let delim := match after.findIdx? (fun c => c = '/' || c = '?' || c = '#') with
        | some d => d
        | none => after.length
      let netloc := after.take delim
      let rest := after.drop delim
      if (decide ('[' ∈ netloc)) != (decide (']' ∈ netloc)) then none
      else if '[' ∈ netloc then
        let bracketed := (partitionChar ']' (partitionChar '[' netloc).2.2).1
        if checkBracketedHost bracketed then some (netloc, rest) else none
      else some (netloc, rest)
    else some ([], url2)
  match netlocSplit with
  | none => none
  | some (netloc, url3) =>
    let fragSplit :=
      match splitOnce '#' url3 with
      | (u, some f) => (u, f)
      | (u, none) => (u, [])
    let querySplit :=
      match splitOnce '?' fragSplit.1 with
      | (u, some q) => (u, q)
      | (u, none) => (u, [])
    if netloc.all (fun c => c.toNat ≤ 0x7F) then
      some ⟨scheme, netloc, querySplit.1, querySplit.2, fragSplit.2⟩
    else none

/-- `urllib.parse.uses_params`. -/
def uses_params : List (List Char) :=
  (["", "ftp", "hdl", "prospero", "http", "imap", "https", "shttp", "rtsp",
    "rtsps", "rtspu", "sip", "sips", "mms", "sftp", "tel"].map String.toList)

/-- `urllib.parse.uses_netloc`. -/
def uses_netloc : List (List Char) :=
  (["", "ftp", "http", "gopher", "nntp", "telnet", "imap", "wais", "file",
    "mms", "https", "shttp", "snews", "prospero", "rtsp", "rtsps", "rtspu",
    "rsync", "svn", "svn+ssh", "sftp", "nfs", "git", "git+ssh", "ws",
    "wss"].map String.toList)

/-- `urllib.parse._splitparams`: split `;params` off the last path
segment. -/
def splitParamsFn (url : List Char) : List Char × List Char :=
  if '/' ∈ url then
    let rSlash := match url.reverse.findIdx? (· = '/') with
      | some j => url.length - 1 - j
      | none => 0
    match findIdxFrom (· = ';') rSlash url with
    | none => (url, [])
    | some i => (url.take i, url.drop (i + 1))
  else
    match url.findIdx? (· = ';') with
    | none => (url, [])
    | some i => (url.take i, url.drop (i + 1))

/-- `urllib.parse.urlparse` (defaults): `urlsplit`, then split params
from the path when the scheme uses them. -/
def urlparseE (url : List Char) : Option ParseResult :=
  (urlsplitE url).map fun r =>
    if r.scheme ∈ uses_params ∧ ';' ∈ r.path then
      let pp := splitParamsFn r.path
      ⟨r.scheme, r.netloc, pp.1, pp.2, r.query, r.fragment⟩
    else ⟨r.scheme, r.netloc, r.path, [], r.query, r.fragment⟩

/-- The `hostname` property of a parse result, as the string the caller
gets from `parsed.hostname or ""`: strip userinfo at the last `@`,
take the bracketed host or the part before `:`, lowercase (preserving a
`%zone` suffix verbatim as CPython does); empty means `None`. -/
def hostnameOf (netloc : List Char) : List Char :=
  let hostinfo := (rpartitionChar '@' netloc).2.2
  let br := partitionChar '[' hostinfo
  let hostname := if br.2.1 then (partitionChar ']' br.2.2).1
    else (partitionChar ':' hostinfo).1
  if hostname = [] then []
  else
    let pz := partitionChar '%' hostname
    pz.1.map lowerChar ++ (if pz.2.1 then '%' :: pz.2.2 else [])

/-- `urllib.parse.urlunsplit` (CPython 3.11): re-attach `//` when there
is a netloc, or when the scheme uses one and the path does not already
begin with `//`. -/
def urlunsplit (scheme netloc url query fragment : List Char) : List Char :=
  let url :=
    if netloc ≠ [] ∨ (scheme ≠ [] ∧ scheme ∈ uses_netloc ∧ url.take 2 ≠ ['/', '/']) then
      let url := if url ≠ [] ∧ url.head? ≠ some '/' then '/' :: url else url
      '/' :: '/' :: (netloc ++ url)
    else url
  let url := if scheme ≠ [] then scheme ++ ':' :: url else url
  let url := if query ≠ [] then url ++ '?' :: query else url
  if fragment ≠ [] then url ++ '#' :: fragment else url

/-- `urllib.parse.urlunparse`: re-attach `;params`, then `urlunsplit`. -/
def urlunparse (scheme netloc path params query fragment : List Char) : List Char :=
  let url := if params ≠ [] then path ++ ';' :: params else path
  urlunsplit scheme netloc url query fragment

/-- Python `s.rstrip("/")`. -/
def rstripSlash (l : List Char) : List Char :=
  (l.reverse.dropWhile (· = '/')).reverse

/-- `mcp/explorer.normalize_url`: empty input maps to `""`; otherwise
parse, take `(parsed.hostname or "").lower()` as the netloc, strip the
path's trailing slashes (defaulting to `/`), sort and re-encode the
query pairs, default the scheme to `https`, drop the fragment, and
unparse.  `none` models a `ValueError` escaping from `urlparse`. -/
def normalize_url (url : String) : Option String :=
  if url = "" then some "" else
  match urlparseE url.toList with
  | none => none
  | some parsed =>
    let netloc := (hostnameOf parsed.netloc).map lowerChar
    let path := let p := rstripSlash parsed.path; if p = [] then ['/'] else p
    let query_pairs := sortPairs (parse_qsl parsed.query)
    let normalized_query := urlencode query_pairs
    let scheme := let s := parsed.scheme.map lowerChar
      if s = [] then "https".toList else s
    some (String.mk (urlunparse scheme netloc path parsed.params normalized_query []))

end UrlPy

/-! ## Verification cache (`verification.py`, `main.py::verify_claim`) -/

/-- Python whitespace for `str.split()` (ASCII subset; the full Unicode
space classification of `str.isspace` is not reproduced). -/
def isPySpace (c : Char) : Bool :=
  c = ' ' || c = '\t' || c = '\n' || c = '\r' || c.toNat = 0x0B || c.toNat = 0x0C

/-- Accumulating word splitter behind `text.split()`. -/
def wordsGo : List Char → List Char → List (List Char)
  | [], acc => if acc = [] then [] else [acc.reverse]
  | c :: rest, acc =>
    if isPySpace c then
      if acc = [] then wordsGo rest [] else acc.reverse :: wordsGo rest []
    else wordsGo rest (c :: acc)

/-- Python `text.split()`: maximal non-whitespace runs. -/
def wordsOf (l : List Char) : List (List Char) := wordsGo l []

/-- `verification.normalize_claim_text`: lowercase, then collapse
whitespace runs to single spaces (`" ".join(text.lower().split())`). -/
def normalize_claim_text (text : String) : String :=
  String.mk (List.intercalate [' '] (wordsOf (text.toList.map UrlPy.lowerChar)))

/-- `hashlib.sha256(...).hexdigest()`.  Every claim below uses only
that the digest is a deterministic function of the hashed bytes, so the
digest is modelled as the tagged material itself rather than the SHA-256
compression; no theorem concludes anything from digest *in*equality. -/
def sha256Hex (material : String) : String := "sha256:" ++ material

/-- `mcp/explorer.compute_content_hash`: SHA-256 over the stripped,
lowercased title followed by the stripped, lowercased snippet. -/
def compute_content_hash (title snippet : String) : String :=
  let strip := fun (l : List Char) =>
    ((l.dropWhile isPySpace).reverse.dropWhile isPySpace).reverse
  sha256Hex (String.mk ((strip title.toList).map UrlPy.lowerChar)
    ++ String.mk ((strip snippet.toList).map UrlPy.lowerChar))

/-- `models.TimeWindow` (`end` is called `stop` here; both bounds are
optional timestamps). -/
structure TimeWindow where
  start : Option Int
  stop : Option Int
deriving Repr, DecidableEq

/-- `models.VerdictType`. -/
inductive VerdictType where
  | SUPPORTS | REFUTES | MIXED | UNCERTAIN
deriving Repr, DecidableEq

/-- `models.ModelAssessment` (the field `_determine_verdict` reads). -/
structure ModelAssessment where
  id : Nat
  verdict : VerdictType
deriving Repr, DecidableEq

/-- `models.VerificationRecord`; `id` is the `uuid4` default, modelled
as a counter-allocated natural. -/
structure VerificationRecord where
  id : Nat
  claim_slug : String
  verdict : VerdictType
  providers : List String
  evidence_ids : List Nat
  sources_hash : String
  time_window : TimeWindow
deriving Repr, DecidableEq

/-- The part of `models.Claim` the verification endpoint reads. -/
structure ClaimState where
  text : String
  evidence : List Evidence
  model_assessments : List ModelAssessment
deriving Repr, DecidableEq

/-- `verification.DEFAULT_PROVIDERS`. -/
def DEFAULT_PROVIDERS : List String := ["gpt-5", "claude-sonnet-4-20250514"]

/-- The timestamp rendering `datetime.isoformat()`: any injective
rendering of the timestamp works for the determinism claims; the
decimal rendering of the integer timestamp is used. -/
def isoStr (t : Int) : String := toString t

/-- Python string `≤` as a Bool (ties broken by equality). -/
def strLeB (a b : String) : Bool :=
  UrlPy.strLt a.toList b.toList || a = b

/-- `verification.compute_sources_hash`: `"no-sources"` for an empty
list, otherwise the digest of the `|`-joined
`(id, url, publisher, snippet, published)` tuples of the evidence
sorted by id (`digest.update` per record is hashing the
concatenation). -/
def compute_sources_hash (evidence : List Evidence) : String :=
  if evidence = [] then "no-sources"
  else
    let sorted := UrlPy.stableSort (fun a b => decide (a.id ≤ b.id)) evidence
    let records := sorted.map fun item =>
      String.intercalate "|"
        [toString item.id, item.url, item.publisher, item.snippet,
         match item.published_at with | some t => isoStr t | none => ""]
    sha256Hex (String.join records)

/-- `verification.build_cache_key`: SHA-256 over the `|`-joined
normalized text, window bounds (`"null"` when absent), sorted provider
fingerprint, and sources hash. -/
def build_cache_key (claim_text : String) (time_window : TimeWindow)
    (providers : List String) (sources_hash : String) : String :=
  let normalized_text := normalize_claim_text claim_text
  let start := match time_window.start with | some t => isoStr t | none => "null"
  let stop := match time_window.stop with | some t => isoStr t | none => "null"
  let provider_fingerprint :=
    if providers = [] then ""
    else String.intercalate "|" (UrlPy.stableSort strLeB providers)
  sha256Hex (String.intercalate "|"
    [normalized_text, start, stop, provider_fingerprint, sources_hash])

/-- `verification.get_cached_verification` at value level (the shallow
`model_copy` is the identity on values; the aliasing consequences are
modelled separately for C9). -/
def get_cached_verification (cache : List (String × VerificationRecord))
    (cache_key : String) : Option VerificationRecord :=
  (cache.find? (fun kv => kv.1 = cache_key)).map (·.2)

/-- `verification.store_verification`: dict assignment (the new binding
shadows any previous one). -/
def store_verification (cache : List (String × VerificationRecord))
    (cache_key : String) (record : VerificationRecord) :
    List (String × VerificationRecord) :=
  (cache_key, record) :: cache

/-- `verification._determine_verdict`: majority over the claim's model
assessments. -/
def _determine_verdict (claim : ClaimState) : VerdictType :=
  if claim.model_assessments = [] then .UNCERTAIN
  else
    let support := (claim.model_assessments.filter
      (fun a => a.verdict = VerdictType.SUPPORTS)).length
    let refute := (claim.model_assessments.filter
      (fun a => a.verdict = VerdictType.REFUTES)).length
    if refute < support then .SUPPORTS
    else if support < refute then .REFUTES
    else if support = refute ∧ 0 < support then .MIXED
    else .UNCERTAIN

/-- `verification.create_verification_record` with the fresh `uuid4`
made explicit. -/
def create_verification_record (claim : ClaimState) (claim_slug : String)
    (evidence : List Evidence) (providers : List String)
    (time_window : TimeWindow) (sources_hash : String) (fresh : Nat) :
    VerificationRecord :=
  { id := fresh,
    claim_slug := claim_slug,
    verdict := _determine_verdict claim,
    providers := providers,
    evidence_ids := evidence.map (·.id),
    sources_hash := sources_hash,
    time_window := time_window }

/-! ## Evidence persistence (`main.py::_gather_and_persist_sources`,
`run_panel.py` Phase 4 merge) -/

/-- `ExplorerSource.to_evidence` plus `Evidence.model_post_init`:
`normalized_url` is recomputed from the url when unset, `content_hash`
from title and snippet when unset; `none` models a `ValueError` from
`normalize_url`. -/
def to_evidence (src : ExplorerSource) (id : Nat) (provenance : String) :
    Option Evidence :=
  let nuE : Option String :=
    if src.normalized_url = "" ∧ src.url ≠ "" then UrlPy.normalize_url src.url
    else some src.normalized_url
  match nuE with
  | none => none
  | some nu =>
    let ch := if src.content_hash = "" then
        compute_content_hash src.title src.snippet
      else src.content_hash
    some { id := id, url := src.url, publisher := src.publisher,
           title := src.title, snippet := src.snippet,
           published_at := src.published_at,
           normalized_url := nu, content_hash := ch,
           provenance := provenance }

/-- The `for source in gathered_sources` loop of
`_gather_and_persist_sources`: skip sources whose normalized url or
content hash was already seen, append the rest to the claim and to the
returned batch, updating both seen-sets. -/
def gatherLoop (urls hashes : List String) (fresh : Nat) :
    List ExplorerSource → List Evidence → List Evidence →
    Option (List Evidence × List Evidence × Nat)
  | [], claim_ev, new_acc => some (claim_ev, new_acc, fresh)
  | src :: rest, claim_ev, new_acc =>
    let nuE : Option String :=
      if src.normalized_url ≠ "" then some src.normalized_url
      else UrlPy.normalize_url src.url
    match nuE with
    | none => none
    | some nu =>
      if nu ≠ "" ∧ nu ∈ urls then
        gatherLoop urls hashes fresh rest claim_ev new_acc
      else if src.content_hash ≠ "" ∧ src.content_hash ∈ hashes then
        gatherLoop urls hashes fresh rest claim_ev new_acc
      else
        match to_evidence src fresh "mcp-explorer" with
        | none => none
        | some ev =>
          gatherLoop
            (if ev.normalized_url ≠ "" then ev.normalized_url :: urls else urls)
            (if ev.content_hash ≠ "" then ev.content_hash :: hashes else hashes)
            (fresh + 1) rest (claim_ev ++ [ev]) (new_acc ++ [ev])

/-- `main._gather_and_persist_sources` (after the explorer call):
empty gathering short-circuits; otherwise seed the seen-sets from all
existing evidence and run the loop.  Returns the claim's new evidence
list, the appended batch, and the next fresh id. -/
def _gather_and_persist_sources (claim_ev : List Evidence)
    (gathered : List ExplorerSource) (fresh : Nat) :
    Option (List Evidence × List Evidence × Nat) :=
  if gathered = [] then some (claim_ev, [], fresh)
  else
    gatherLoop
      ((claim_ev.filter (fun e => e.normalized_url ≠ "")).map (·.normalized_url))
      ((claim_ev.filter (fun e => e.content_hash ≠ "")).map (·.content_hash))
      fresh gathered claim_ev []

/-- The Phase 4 dedup loop of `run_agentic_panel_evaluation`: keep the
first occurrence of each raw `url`. -/
def phase4Dedup (seen : List String) : List Evidence → List Evidence
  | [] => []
  | e :: rest =>
    if e.url ∈ seen then phase4Dedup seen rest
    else e :: phase4Dedup (e.url :: seen) rest

/-- Phase 4 of `run_agentic_panel_evaluation`: extend the claim's
evidence with the pooled evidence and dedup by exact `url`. -/
def phase4_merge_evidence (claim_ev all_evidence : List Evidence) : List Evidence :=
  phase4Dedup [] (claim_ev ++ all_evidence)

/-- The spec's deduplication invariant: no two evidence entries share a
non-empty `normalized_url`, and none share a non-empty `content_hash`. -/
def NoDupEvidence (l : List Evidence) : Prop :=
  l.Pairwise (fun a b =>
    ¬(a.normalized_url ≠ "" ∧ a.normalized_url = b.normalized_url) ∧
    ¬(a.content_hash ≠ "" ∧ a.content_hash = b.content_hash))

instance (l : List Evidence) : Decidable (NoDupEvidence l) := by
  unfold NoDupEvidence; infer_instance

/-- In-memory server state read and written by `verify_claim`: the
verification cache (dict as shadowing assoc list), the claim being
verified, and the fresh-uuid supply (modelled as a counter). -/
structure ServerState where
  cache : List (String × VerificationRecord)
  claim : ClaimState
  nextId : Nat
deriving Repr, DecidableEq

/-- `models.VerificationResponse` (the fields the claims inspect). -/
structure VerificationResponse where
  verification_id : Nat
  cached : Bool
  verdict : VerdictType
  providers : List String
  evidence_ids : List Nat
  time_window : TimeWindow
deriving Repr, DecidableEq

/-- The `time_start > time_end` 400 guard of `verify_claim`. -/
def windowInverted (start stop : Option Int) : Bool :=
  match start, stop with
  | some s, some e => decide (e < s)
  | _, _ => false

/-- `main.verify_claim` after parameter parsing: compute the cache key
over the current in-window evidence; look it up unless `force`; gather
new sources (the explorer's network result is the `gathered` argument;
an explorer exception is caught and treated as no new evidence); on new
evidence, recompute the key and store a fresh record; otherwise serve
the cached record if found, else create and store a fresh record under
the existing key.  `none` models the 400 response. -/
def verify_claim (st : ServerState) (claim_id : String)
    (start stop : Option Int) (providers : Option (List String)) (force : Bool)
    (gathered : List ExplorerSource) :
    Option (VerificationResponse × ServerState) :=
  if windowInverted start stop then none
  else
    let selected_providers := providers.getD DEFAULT_PROVIDERS
    let window : TimeWindow := ⟨start, stop⟩
    let evidence_in_range := filter_evidence_by_time_window st.claim.evidence start stop
    let existing_sources_hash := compute_sources_hash evidence_in_range
    let existing_cache_key :=
      build_cache_key st.claim.text window selected_providers existing_sources_hash
    let cached_record :=
      if force then none else get_cached_verification st.cache existing_cache_key
    let gr := match _gather_and_persist_sources st.claim.evidence gathered st.nextId with
      | some res => res
      | none => (st.claim.evidence, [], st.nextId)
    let claim' : ClaimState := { st.claim with evidence := gr.1 }
    let new_evidence := gr.2.1
    let freshId := gr.2.2
    if new_evidence ≠ [] then
      let evidence_in_range2 := filter_evidence_by_time_window claim'.evidence start stop
      let sources_hash := compute_sources_hash evidence_in_range2
      let cache_key := build_cache_key st.claim.text window selected_providers sources_hash
      let new_record := create_verification_record claim' claim_id evidence_in_range2
        selected_providers window sources_hash freshId
      some
        ({ verification_id := new_record.id, cached := false,
           verdict := new_record.verdict, providers := new_record.providers,
           evidence_ids := new_record.evidence_ids,
           time_window := new_record.time_window },
         { cache := store_verification st.cache cache_key new_record,
           claim := claim', nextId := freshId + 1 })
    else
      match cached_record with
      | some r =>
        some
          ({ verification_id := r.id, cached := true, verdict := r.verdict,
             providers := r.providers, evidence_ids := r.evidence_ids,
             time_window := r.time_window },
           { st with claim := claim' })
      | none =>
        let new_record := create_verification_record claim' claim_id evidence_in_range
          selected_providers window existing_sources_hash freshId
        some
          ({ verification_id := new_record.id, cached := false,
             verdict := new_record.verdict, providers := new_record.providers,
             evidence_ids := new_record.evidence_ids,
             time_window := new_record.time_window },
           { cache := store_verification st.cache existing_cache_key new_record,
             claim := claim', nextId := freshId + 1 })

/-- Well-formedness of the server state: every cached record id was
allocated before the current fresh counter (true of every reachable
state, since records take their id from the counter). -/
def CacheIdsBounded (st : ServerState) : Prop :=
  ∀ kv ∈ st.cache, kv.2.id < st.nextId

instance (st : ServerState) : Decidable (CacheIdsBounded st) := by
  unfold CacheIdsBounded; infer_instance

lemma insertSorted_perm (le : α → α → Bool) (x : α) :
    ∀ l : List α, (UrlPy.insertSorted le x l).Perm (x :: l) := by
  intro l
  induction l with
  | nil => simp [UrlPy.insertSorted]
  | cons y ys ih =>
    unfold UrlPy.insertSorted
    by_cases h : le y x = true
    · rw [if_pos h]
      exact (ih.cons y).trans (List.Perm.swap x y ys)
    · rw [if_neg h]

lemma stableSortGo_perm (le : α → α → Bool) :
    ∀ (l acc : List α),
      (l.foldl (fun acc x => UrlPy.insertSorted le x acc) acc).Perm (acc ++ l) := by
  intro l
  induction l with
  | nil => intro acc; simp
  | cons x t ih =>
    intro acc
    simp only [List.foldl_cons]
    refine (ih (UrlPy.insertSorted le x acc)).trans ?_
    have h1 : (UrlPy.insertSorted le x acc ++ t).Perm ((x :: acc) ++ t) :=
      (insertSorted_perm le x acc).append_right t
    refine h1.trans ?_
    simpa using List.perm_middle.symm

lemma stableSort_perm (le : α → α → Bool) (l : List α) :
    (UrlPy.stableSort le l).Perm l := by
  simpa using stableSortGo_perm le l []

lemma insertSorted_pairwise (le : α → α → Bool)
    (htot : ∀ a b, le a b = true ∨ le b a = true)
    (htrans : ∀ a b c, le a b = true → le b c = true → le a c = true) :
    ∀ (l : List α) (x : α), l.Pairwise (fun a b => le a b = true) →
      (UrlPy.insertSorted le x l).Pairwise (fun a b => le a b = true) := by
  intro l
  induction l with
  | nil => intro x _; simp [UrlPy.insertSorted]
  | cons y ys ih =>
    intro x hp
    rcases List.pairwise_cons.mp hp with ⟨hy, hys⟩
    unfold UrlPy.insertSorted
    by_cases hyx : le y x = true
    · rw [if_pos hyx]
      apply List.pairwise_cons.mpr
      refine ⟨fun b hb => ?_, ih x hys⟩
      have hmem : b ∈ x :: ys := (insertSorted_perm le x ys).mem_iff.mp hb
      rcases List.mem_cons.mp hmem with rfl | hbys
      · exact hyx
      · exact hy b hbys
    · rw [if_neg hyx]
      have hxy : le x y = true := by
        rcases htot x y with h | h
        · exact h
        · exact absurd h hyx
      apply List.pairwise_cons.mpr
      refine ⟨fun b hb => ?_, hp⟩
      rcases List.mem_cons.mp hb with rfl | hbys
      · exact hxy
      · exact htrans x y b hxy (hy b hbys)

lemma stableSort_pairwise (le : α → α → Bool)
    (htot : ∀ a b, le a b = true ∨ le b a = true)
    (htrans : ∀ a b c, le a b = true → le b c = true → le a c = true)
    (l : List α) :
    (UrlPy.stableSort le l).Pairwise (fun a b => le a b = true) := by
  suffices h : ∀ (l acc : List α), acc.Pairwise (fun a b => le a b = true) →
      (l.foldl (fun acc x => UrlPy.insertSorted le x acc) acc).Pairwise
        (fun a b => le a b = true) by
    exact h l [] (by simp)
  intro l
  induction l with
  | nil => intro acc hacc; simpa using hacc
  | cons x t ih =>
    intro acc hacc
    simp only [List.foldl_cons]
    exact ih _ (insertSorted_pairwise le htot htrans acc x hacc)

/-- Two sorted lists that are permutations of one another and on whose
elements `le` is antisymmetric are equal. -/
lemma sorted_perm_eq (le : α → α → Bool) :
    ∀ (l₁ l₂ : List α), l₁.Perm l₂ →
      l₁.Pairwise (fun a b => le a b = true) →
      l₂.Pairwise (fun a b => le a b = true) →
      (∀ a ∈ l₁, ∀ b ∈ l₁, le a b = true → le b a = true → a = b) →
      l₁ = l₂ := by
  intro l₁
  induction l₁ with
  | nil =>
    intro l₂ hperm _ _ _
    exact hperm.nil_eq
  | cons a t ih =>
    intro l₂ hperm hp1 hp2 hanti
    cases l₂ with
    | nil => exact absurd hperm.symm.nil_eq (by simp)
    | cons b t₂ =>
      have hab : a = b := by
        have hainl2 : a ∈ b :: t₂ := hperm.mem_iff.mp (List.mem_cons_self a t)
        have hbinl1 : b ∈ a :: t := hperm.symm.mem_iff.mp (List.mem_cons_self b t₂)
        rcases List.mem_cons.mp hainl2 with h | hain
        · exact h
        · rcases List.mem_cons.mp hbinl1 with h | hbin
          · exact h.symm
          · have h1 : le a b = true := (List.pairwise_cons.mp hp1).1 b hbin
            have h2 : le b a = true := (List.pairwise_cons.mp hp2).1 a hain
            exact hanti a (List.mem_cons_self a t) b (List.mem_cons_of_mem a hbin) h1 h2
      subst hab
      have ht : t.Perm t₂ := hperm.cons_inv
      rw [ih t₂ ht (List.pairwise_cons.mp hp1).2 (List.pairwise_cons.mp hp2).2
        (fun x hx y hy => hanti x (List.mem_cons_of_mem a hx) y (List.mem_cons_of_mem a hy))]

lemma strLt_trichotomy : ∀ a b : List Char,
    UrlPy.strLt a b = true ∨ a = b ∨ UrlPy.strLt b a = true := by
  intro a
  induction a with
  | nil =>
    intro b
    cases b with
    | nil => right; left; rfl
    | cons c cs => left; rfl
  | cons c cs ih =>
    intro b
    cases b with
    | nil => right; right; rfl
    | cons d ds =>
      rcases lt_trichotomy c d with h | h | h
      · left; unfold UrlPy.strLt; rw [if_pos h]
      · subst h
        rcases ih ds with h2 | h2 | h2
        · left; unfold UrlPy.strLt; rw [if_neg (lt_irrefl c), if_neg (lt_irrefl c)]; exact h2
        · right; left; rw [h2]
        · right; right; unfold UrlPy.strLt
          rw [if_neg (lt_irrefl c), if_neg (lt_irrefl c)]; exact h2
      · right; right; unfold UrlPy.strLt; rw [if_pos h]

lemma strLt_asymm : ∀ a b : List Char,
    UrlPy.strLt a b = true → UrlPy.strLt b a = true → False := by
  intro a
  induction a with
  | nil =>
    intro b h1 h2
    cases b with
    | nil => simp [UrlPy.strLt] at h1
    | cons d ds => simp [UrlPy.strLt] at h2
  | cons c cs ih =>
    intro b h1 h2
    cases b with
    | nil => simp [UrlPy.strLt] at h1
    | cons d ds =>
      unfold UrlPy.strLt at h1 h2
      rcases lt_trichotomy c d with h | h | h
      · rw [if_neg (not_lt.mpr (le_of_lt h)), if_pos h] at h2
        simp at h2
      · subst h
        rw [if_neg (lt_irrefl c), if_neg (lt_irrefl c)] at h1 h2
        exact ih ds h1 h2
      · rw [if_neg (not_lt.mpr (le_of_lt h)), if_pos h] at h1
        simp at h1

lemma strLt_trans : ∀ a b c : List Char,
    UrlPy.strLt a b = true → UrlPy.strLt b c = true → UrlPy.strLt a c = true := by
  intro a
  induction a with
  | nil =>
    intro b c h1 h2
    cases b with
    | nil => simp [UrlPy.strLt] at h1
    | cons d ds =>
      cases c with
      | nil => simp [UrlPy.strLt] at h2
      | cons e es => rfl
  | cons x xs ih =>
    intro b c h1 h2
    cases b with
    | nil => simp [UrlPy.strLt] at h1
    | cons y ys =>
      cases c with
      | nil => simp [UrlPy.strLt] at h2
      | cons z zs =>
        unfold UrlPy.strLt at h1 h2 ⊢
        rcases lt_trichotomy x y with hxy | hxy | hxy
        · rcases lt_trichotomy y z with hyz | hyz | hyz
          · rw [if_pos (lt_trans hxy hyz)]
          · subst hyz; rw [if_pos hxy]
          · rw [if_neg (not_lt.mpr (le_of_lt hyz)), if_pos hyz] at h2
            simp at h2
        · subst hxy
          rw [if_neg (lt_irrefl x), if_neg (lt_irrefl x)] at h1
          rcases lt_trichotomy x z with hxz | hxz | hxz
          · rw [if_pos hxz]
          · subst hxz
            rw [if_neg (lt_irrefl x), if_neg (lt_irrefl x)] at h2 ⊢
            exact ih ys zs h1 h2
          · rw [if_neg (not_lt.mpr (le_of_lt hxz)), if_pos hxz] at h2
            simp at h2
        · rw [if_neg (not_lt.mpr (le_of_lt hxy)), if_pos hxy] at h1
          simp at h1

lemma strLeB_total (a b : String) : strLeB a b = true ∨ strLeB b a = true := by
  unfold strLeB
  rcases strLt_trichotomy a.toList b.toList with h | h | h
  · left; rw [h]; rfl
  · left
    have : a = b := by
      cases a; cases b; simp only [String.toList] at h; simp [h]
    simp [this]
  · right; rw [h]; rfl

lemma strLeB_trans (a b c : String) :
    strLeB a b = true → strLeB b c = true → strLeB a c = true := by
  unfold strLeB
  intro h1 h2
  rcases Bool.or_eq_true_iff.mp h1 with hl1 | he1
  · rcases Bool.or_eq_true_iff.mp h2 with hl2 | he2
    · rw [strLt_trans _ _ _ hl1 hl2]; rfl
    · have : b = c := by simpa using he2
      subst this; rw [hl1]; rfl
  · have : a = b := by simpa using he1
    subst this; exact h2

lemma strLeB_antisymm (a b : String) :
    strLeB a b = true → strLeB b a = true → a = b := by
  unfold strLeB
  intro h1 h2
  rcases Bool.or_eq_true_iff.mp h1 with hl1 | he1
  · rcases Bool.or_eq_true_iff.mp h2 with hl2 | he2
    · exact absurd (strLt_asymm _ _ hl1 hl2) not_false
    · exact (show b = a by simpa using he2).symm
  · simpa using he1

/-- The stable sorts of two permuted provider lists coincide. -/
lemma sortProviders_eq_of_perm (p1 p2 : List String) (hp : p1.Perm p2) :
    UrlPy.stableSort strLeB p1 = UrlPy.stableSort strLeB p2 := by
  apply sorted_perm_eq strLeB
  · exact (stableSort_perm strLeB p1).trans (hp.trans (stableSort_perm strLeB p2).symm)
  · exact stableSort_pairwise strLeB strLeB_total strLeB_trans p1
  · exact stableSort_pairwise strLeB strLeB_total strLeB_trans p2
  · intro a _ b _ h1 h2; exact strLeB_antisymm a b h1 h2

/-- The id-sorts of two permuted evidence lists with distinct ids
coincide. -/
lemma sortEvidence_eq_of_perm (ev1 ev2 : List Evidence) (hp : ev1.Perm ev2)
    (hids : (ev1.map Evidence.id).Nodup) :
    UrlPy.stableSort (fun a b => decide (a.id ≤ b.id)) ev1
      = UrlPy.stableSort (fun a b => decide (a.id ≤ b.id)) ev2 := by
  apply sorted_perm_eq (fun a b => decide (a.id ≤ b.id))
  · exact (stableSort_perm _ ev1).trans (hp.trans (stableSort_perm _ ev2).symm)
  · exact stableSort_pairwise _ (fun a b => by
      rcases Nat.le_total a.id b.id with h | h
      · left; simpa using h
      · right; simpa using h)
      (fun a b c h1 h2 => by
        simp only [decide_eq_true_eq] at *
        omega) ev1
  · exact stableSort_pairwise _ (fun a b => by
      rcases Nat.le_total a.id b.id with h | h
      · left; simpa using h
      · right; simpa using h)
      (fun a b c h1 h2 => by
        simp only [decide_eq_true_eq] at *
        omega) ev2
  · intro a ha b hb h1 h2
    have hs := (stableSort_perm (fun a b => decide (a.id ≤ b.id)) ev1)
    have ha1 : a ∈ ev1 := hs.mem_iff.mp ha
    have hb1 : b ∈ ev1 := hs.mem_iff.mp hb
    have hid : a.id = b.id := by
      simp only [decide_eq_true_eq] at h1 h2
      omega
    by_contra hne
    have := List.inj_on_of_nodup_map hids ha1 hb1 hid
    exact hne this

/-- Equal sorted evidence lists give equal sources hashes. -/
lemma compute_sources_hash_eq_of_perm (ev1 ev2 : List Evidence)
    (hp : ev1.Perm ev2) (hids : (ev1.map Evidence.id).Nodup) :
    compute_sources_hash ev1 = compute_sources_hash ev2 := by
  unfold compute_sources_hash
  by_cases h1 : ev1 = []
  · subst h1
    rw [if_pos rfl, if_pos hp.nil_eq.symm]
  · have h2 : ev2 ≠ [] := by
      intro h2
      subst h2
      exact h1 hp.eq_nil
    rw [if_neg h1, if_neg h2, sortEvidence_eq_of_perm ev1 ev2 hp hids]

/-- `if force then None else get_cached_verification(...)` as a named
helper. -/
def cachedLookup (force : Bool) (cache : List (String × VerificationRecord))
    (key : String) : Option VerificationRecord :=
  if force then none else get_cached_verification cache key

lemma cachedLookup_false (cache : List (String × VerificationRecord)) (key : String) :
    cachedLookup false cache key = get_cached_verification cache key := rfl

lemma cachedLookup_true (cache : List (String × VerificationRecord)) (key : String) :
    cachedLookup true cache key = none := rfl

/-- The cache key `verify_claim` computes from the current state. -/
def vkey (st : ServerState) (start stop : Option Int)
    (providers : Option (List String)) : String :=
  build_cache_key st.claim.text ⟨start, stop⟩ (providers.getD DEFAULT_PROVIDERS)
    (compute_sources_hash (filter_evidence_by_time_window st.claim.evidence start stop))

/-- The response `verify_claim` builds from a record. -/
def respOfRecord (r : VerificationRecord) (cached : Bool) : VerificationResponse :=
  { verification_id := r.id, cached := cached, verdict := r.verdict,
    providers := r.providers, evidence_ids := r.evidence_ids,
    time_window := r.time_window }

/-- The fresh record `verify_claim` creates on a cache miss with no new
evidence. -/
def freshRecord (st : ServerState) (claim_id : String) (start stop : Option Int)
    (providers : Option (List String)) : VerificationRecord :=
  create_verification_record st.claim claim_id
    (filter_evidence_by_time_window st.claim.evidence start stop)
    (providers.getD DEFAULT_PROVIDERS) ⟨start, stop⟩
    (compute_sources_hash (filter_evidence_by_time_window st.claim.evidence start stop))
    st.nextId

/-- Shape of `verify_claim` when the explorer returns nothing: either
serve the cached record (claim and cache unchanged), or create and
store a fresh record under the existing key. -/
lemma verify_claim_no_gather (st : ServerState) (claim_id : String)
    (start stop : Option Int) (providers : Option (List String)) (force : Bool)
    (hwin : windowInverted start stop = false) :
    verify_claim st claim_id start stop providers force [] =
      match cachedLookup force st.cache (vkey st start stop providers) with
      | some r => some (respOfRecord r true, st)
      | none =>
        some (respOfRecord (freshRecord st claim_id start stop providers) false,
          { cache := store_verification st.cache (vkey st start stop providers)
              (freshRecord st claim_id start stop providers),
            claim := st.claim, nextId := st.nextId + 1 }) := by
  unfold verify_claim vkey respOfRecord freshRecord cachedLookup
  simp only [hwin, Bool.false_eq_true, if_false]
  rfl

lemma get_cached_of_store (cache : List (String × VerificationRecord))
    (key : String) (r : VerificationRecord) :
    get_cached_verification (store_verification cache key r) key = some r := by
  simp [get_cached_verification, store_verification, List.find?]

lemma cached_id_lt (st : ServerState) (key : String) (r : VerificationRecord)
    (hwf : CacheIdsBounded st)
    (hcache : get_cached_verification st.cache key = some r) :
    r.id < st.nextId := by
  unfold get_cached_verification at hcache
  cases hfind : st.cache.find? (fun kv => kv.1 = key) with
  | none => rw [hfind] at hcache; simp at hcache
  | some kv =>
    rw [hfind] at hcache
    have hkvr : kv.2 = r := by
      have := hcache
      simp only [Option.map] at this
      exact Option.some.inj this
    have hmem := List.mem_of_find?_eq_some hfind
    have := hwf kv hmem
    rw [hkvr] at this
    exact this

/-- C3: the verification cache key is deterministic over the
whitespace/case-normalized claim text, the window, the provider list up
to order, and the evidence set; and on the endpoint, two successive
verify calls during which no new evidence arrives return the same
`verification_id` with `cached = true` on the second response, while a
`force = true` call returns `cached = false` with a fresh
`verification_id` different from the previous one. -/
theorem claim_C3_cache_determinism (t1 t2 : String) (w : TimeWindow)
    (p1 p2 : List String) (ev1 ev2 : List Evidence)
    (htext : normalize_claim_text t1 = normalize_claim_text t2)
    (hprov : p1.Perm p2) (hev : ev1.Perm ev2)
    (hids : (ev1.map Evidence.id).Nodup) :
    build_cache_key t1 w p1 (compute_sources_hash ev1)
      = build_cache_key t2 w p2 (compute_sources_hash ev2) ∧
    (∀ (st : ServerState) (claim_id : String) (start stop : Option Int)
        (providers : Option (List String)),
      windowInverted start stop = false →
      CacheIdsBounded st →
      (verify_claim st claim_id start stop providers false []).isSome ∧
      (∀ r1 s1, verify_claim st claim_id start stop providers false [] = some (r1, s1) →
        (∀ r2 s2, verify_claim s1 claim_id start stop providers false [] = some (r2, s2) →
          r2.verification_id = r1.verification_id ∧ r2.cached = true) ∧
        (∀ r3 s3, verify_claim s1 claim_id start stop providers true [] = some (r3, s3) →
          r3.cached = false ∧ r3.verification_id ≠ r1.verification_id))) := by
  constructor
  · unfold build_cache_key
    rw [htext, compute_sources_hash_eq_of_perm ev1 ev2 hev hids]
    by_cases h : p1 = []
    · have h2 : p2 = [] := by subst h; exact hprov.symm.eq_nil
      rw [if_pos h, if_pos h2]
    · have h2 : p2 ≠ [] := fun hn => h (by subst hn; exact hprov.eq_nil)
      rw [if_neg h, if_neg h2, sortProviders_eq_of_perm p1 p2 hprov]
  · intro st claim_id start stop providers hwin hwf
    constructor
    · rw [verify_claim_no_gather st claim_id start stop providers false hwin,
        cachedLookup_false]
      cases get_cached_verification st.cache (vkey st start stop providers) <;> simp
    · intro r1 s1 h1
      rw [verify_claim_no_gather st claim_id start stop providers false hwin,
        cachedLookup_false] at h1
      cases hcache : get_cached_verification st.cache (vkey st start stop providers) with
      | some r =>
        rw [hcache] at h1
        have h1p := Option.some.inj h1
        have hr1 : respOfRecord r true = r1 := congrArg Prod.fst h1p
        have hs1 : st = s1 := congrArg Prod.snd h1p
        constructor
        · intro r2 s2 h2
          rw [verify_claim_no_gather s1 claim_id start stop providers false hwin,
            cachedLookup_false, ← hs1, hcache] at h2
          have h2p := Option.some.inj h2
          have hr2 : respOfRecord r true = r2 := congrArg Prod.fst h2p
          rw [← hr2, ← hr1]
          exact ⟨rfl, rfl⟩
        · intro r3 s3 h3
          rw [verify_claim_no_gather s1 claim_id start stop providers true hwin,
            cachedLookup_true, ← hs1] at h3
          have h3p := Option.some.inj h3
          have hr3 : respOfRecord (freshRecord st claim_id start stop providers) false = r3 :=
            congrArg Prod.fst h3p
          have hrid : r.id < st.nextId := cached_id_lt st _ r hwf hcache
          rw [← hr3, ← hr1]
          refine ⟨rfl, ?_⟩
          simp only [respOfRecord, freshRecord, create_verification_record]
          omega
      | none =>
        rw [hcache] at h1
        have h1p := Option.some.inj h1
        have hr1 : respOfRecord (freshRecord st claim_id start stop providers) false = r1 :=
          congrArg Prod.fst h1p
        have hs1 : ServerState.mk
              (store_verification st.cache (vkey st start stop providers)
                (freshRecord st claim_id start stop providers))
              st.claim (st.nextId + 1) = s1 :=
          congrArg Prod.snd h1p
        constructor
        · intro r2 s2 h2
          rw [verify_claim_no_gather s1 claim_id start stop providers false hwin,
            cachedLookup_false, ← hs1] at h2
          rw [show vkey (ServerState.mk
                (store_verification st.cache (vkey st start stop providers)
                  (freshRecord st claim_id start stop providers))
                st.claim (st.nextId + 1)) start stop providers
              = vkey st start stop providers from rfl,
            get_cached_of_store] at h2
          have h2p := Option.some.inj h2
          have hr2 : respOfRecord (freshRecord st claim_id start stop providers) true = r2 :=
            congrArg Prod.fst h2p
          rw [← hr2, ← hr1]
          exact ⟨rfl, rfl⟩
        · intro r3 s3 h3
          rw [verify_claim_no_gather s1 claim_id start stop providers true hwin,
            cachedLookup_true, ← hs1] at h3
          have h3p := Option.some.inj h3
          have hr3 : r3 = respOfRecord (freshRecord
              (ServerState.mk
                (store_verification st.cache (vkey st start stop providers)
                  (freshRecord st claim_id start stop providers))
                st.claim (st.nextId + 1))
              claim_id start stop providers) false := (congrArg Prod.fst h3p).symm
          rw [hr3, ← hr1]
          refine ⟨rfl, ?_⟩
          simp only [respOfRecord, freshRecord, create_verification_record]
          omega

/-- Concrete evidence batch used by witnesses. -/
def witnessEvidenceA : List Evidence :=
  [{ id := 1, url := "https://a.com/x", publisher := "A", title := "tA",
     snippet := "sA", published_at := some 5,
     normalized_url := "https://a.com/x", content_hash := "hA",
     provenance := "unit-test" }]

/-- Second concrete evidence batch used by witnesses. -/
def witnessEvidenceB : List Evidence :=
  [{ id := 2, url := "https://b.com/y", publisher := "B", title := "tB",
     snippet := "sB", published_at := none,
     normalized_url := "https://b.com/y", content_hash := "hB",
     provenance := "unit-test" }]

/-- Witness for C3: concrete equal-after-normalization texts, permuted
providers and evidence, and a concrete one-claim server state. -/
theorem claim_C3_witness :
    normalize_claim_text "Crime  IS rising" = normalize_claim_text "crime is RISING" ∧
    (["b", "a"] : List String).Perm ["a", "b"] ∧
    (witnessEvidenceA ++ witnessEvidenceB).Perm (witnessEvidenceB ++ witnessEvidenceA) ∧
    (((witnessEvidenceA ++ witnessEvidenceB).map Evidence.id).Nodup) ∧
    (build_cache_key "Crime  IS rising" ⟨some 0, some 10⟩ ["b", "a"]
        (compute_sources_hash (witnessEvidenceA ++ witnessEvidenceB))
      = build_cache_key "crime is RISING" ⟨some 0, some 10⟩ ["a", "b"]
        (compute_sources_hash (witnessEvidenceB ++ witnessEvidenceA)) ∧
    (∀ (st : ServerState) (claim_id : String) (start stop : Option Int)
        (providers : Option (List String)),
      windowInverted start stop = false →
      CacheIdsBounded st →
      (verify_claim st claim_id start stop providers false []).isSome ∧
      (∀ r1 s1, verify_claim st claim_id start stop providers false [] = some (r1, s1) →
        (∀ r2 s2, verify_claim s1 claim_id start stop providers false [] = some (r2, s2) →
          r2.verification_id = r1.verification_id ∧ r2.cached = true) ∧
        (∀ r3 s3, verify_claim s1 claim_id start stop providers true [] = some (r3, s3) →
          r3.cached = false ∧ r3.verification_id ≠ r1.verification_id)))) :=
  ⟨by decide, by decide, by decide, by decide,
    claim_C3_cache_determinism "Crime  IS rising" "crime is RISING" ⟨some 0, some 10⟩
      ["b", "a"] ["a", "b"] (witnessEvidenceA ++ witnessEvidenceB)
      (witnessEvidenceB ++ witnessEvidenceA)
      (by decide) (by decide) (by decide) (by decide)⟩

lemma to_evidence_fields (src : ExplorerSource) (fresh : Nat) (nu : String)
    (ev : Evidence)
    (hnu : (if src.normalized_url ≠ "" then some src.normalized_url
        else UrlPy.normalize_url src.url) = some nu)
    (hev : to_evidence src fresh "mcp-explorer" = some ev) :
    ev.normalized_url = nu ∧
    ev.content_hash = (if src.content_hash = "" then
      compute_content_hash src.title src.snippet else src.content_hash) := by
  unfold to_evidence at hev
  by_cases h1 : src.normalized_url = ""
  · rw [if_neg (by simpa using h1)] at hnu
    by_cases h2 : src.url = ""
    · rw [if_neg (by simp [h2])] at hev
      rw [h2] at hnu
      have hnu2 : nu = "" := by
        have : UrlPy.normalize_url "" = some "" := rfl
        rw [this] at hnu
        exact (Option.some.inj hnu).symm
      obtain ⟨rfl⟩ : ev = _ := Option.some.inj hev.symm
      exact ⟨by rw [hnu2, h1], rfl⟩
    · rw [if_pos ⟨h1, h2⟩, hnu] at hev
      obtain ⟨rfl⟩ : ev = _ := Option.some.inj hev.symm
      exact ⟨rfl, rfl⟩
  · rw [if_pos h1] at hnu
    rw [if_neg (by simp [h1])] at hev
    obtain ⟨rfl⟩ : ev = _ := Option.some.inj hev.symm
    exact ⟨Option.some.inj hnu, rfl⟩

lemma gatherLoop_nodup :
    ∀ (gathered : List ExplorerSource) (urls hashes : List String) (fresh : Nat)
      (claim_ev acc : List Evidence),
      NoDupEvidence claim_ev →
      (∀ e ∈ claim_ev, e.normalized_url ≠ "" → e.normalized_url ∈ urls) →
      (∀ e ∈ claim_ev, e.content_hash ≠ "" → e.content_hash ∈ hashes) →
      (∀ src ∈ gathered, src.content_hash ≠ "") →
      ∀ ev2 newEv fresh2,
        gatherLoop urls hashes fresh gathered claim_ev acc = some (ev2, newEv, fresh2) →
        NoDupEvidence ev2 := by
  intro gathered
  induction gathered with
  | nil =>
    intro urls hashes fresh claim_ev acc hnd _ _ _ ev2 newEv fresh2 heq
    unfold gatherLoop at heq
    obtain ⟨h1, -⟩ := Prod.mk.injEq _ _ _ _ ▸ Option.some.inj heq
    rw [← h1]
    exact hnd
  | cons src rest ih =>
    intro urls hashes fresh claim_ev acc hnd hurls hhashes hch ev2 newEv fresh2 heq
    unfold gatherLoop at heq
    cases hnu : (if src.normalized_url ≠ "" then some src.normalized_url
        else UrlPy.normalize_url src.url) with
    | none => rw [hnu] at heq; simp at heq
    | some nu =>
      rw [hnu] at heq
      simp only [] at heq
      by_cases hskip1 : nu ≠ "" ∧ nu ∈ urls
      · rw [if_pos hskip1] at heq
        exact ih urls hashes fresh claim_ev acc hnd hurls hhashes
          (fun s hs => hch s (List.mem_cons_of_mem src hs)) ev2 newEv fresh2 heq
      · rw [if_neg hskip1] at heq
        by_cases hskip2 : src.content_hash ≠ "" ∧ src.content_hash ∈ hashes
        · rw [if_pos hskip2] at heq
          exact ih urls hashes fresh claim_ev acc hnd hurls hhashes
            (fun s hs => hch s (List.mem_cons_of_mem src hs)) ev2 newEv fresh2 heq
        · rw [if_neg hskip2] at heq
          cases hev : to_evidence src fresh "mcp-explorer" with
          | none => rw [hev] at heq; simp at heq
          | some ev =>
            rw [hev] at heq
            obtain ⟨hevnu, hevch⟩ := to_evidence_fields src fresh nu ev hnu hev
            have hsrcch : src.content_hash ≠ "" := hch src (List.mem_cons_self src rest)
            have hevch2 : ev.content_hash = src.content_hash := by
              rw [hevch, if_neg hsrcch]
            have hnd2 : NoDupEvidence (claim_ev ++ [ev]) := by
              unfold NoDupEvidence
              rw [List.pairwise_append]
              refine ⟨hnd, by simp, ?_⟩
              intro a ha b hb
              have hb2 : b = ev := by simpa using hb
              subst hb2
              constructor
              · rintro ⟨hane, haeq⟩
                apply hskip1
                rw [hevnu] at haeq
                exact ⟨by rw [← haeq]; exact hane, haeq ▸ hurls a ha hane⟩
              · rintro ⟨hane, haeq⟩
                apply hskip2
                rw [hevch2] at haeq
                exact ⟨by rw [← haeq]; exact hane, haeq ▸ hhashes a ha hane⟩
            refine ih _ _ (fresh + 1) (claim_ev ++ [ev]) (acc ++ [ev]) hnd2 ?_ ?_
              (fun s hs => hch s (List.mem_cons_of_mem src hs)) ev2 newEv fresh2 heq
            · intro e he hene
              rcases List.mem_append.mp he with h | h
              · have := hurls e h hene
                by_cases hevne : ev.normalized_url ≠ ""
                · rw [if_pos hevne]; exact List.mem_cons_of_mem _ this
                · rw [if_neg hevne]; exact this
              · have he2 : e = ev := by simpa using h
                subst he2
                rw [if_pos hene]
                exact List.mem_cons_self _ _
            · intro e he hene
              rcases List.mem_append.mp he with h | h
              · have := hhashes e h hene
                by_cases hevne : ev.content_hash ≠ ""
                · rw [if_pos hevne]; exact List.mem_cons_of_mem _ this
                · rw [if_neg hevne]; exact this
              · have he2 : e = ev := by simpa using h
                subst he2
                rw [if_pos hene]
                exact List.mem_cons_self _ _

lemma phase4Dedup_distinct_urls :
    ∀ (l : List Evidence) (seen : List String),
      (phase4Dedup seen l).Pairwise (fun a b => a.url ≠ b.url) ∧
      (∀ e ∈ phase4Dedup seen l, e.url ∉ seen) := by
  intro l
  induction l with
  | nil => intro seen; simp [phase4Dedup]
  | cons e rest ih =>
    intro seen
    unfold phase4Dedup
    by_cases h : e.url ∈ seen
    · rw [if_pos h]
      exact ih seen
    · rw [if_neg h]
      obtain ⟨hpw, hnotin⟩ := ih (e.url :: seen)
      refine ⟨List.pairwise_cons.mpr ⟨?_, hpw⟩, ?_⟩
      · intro b hb
        have := hnotin b hb
        intro hbe
        exact this (by rw [← hbe]; exact List.mem_cons_self _ _)
      · intro x hx
        rcases List.mem_cons.mp hx with rfl | hx2
        · exact h
        · intro hxin
          exact hnotin x hx2 (List.mem_cons_of_mem _ hxin)

/-- C4 is false as stated: the agentic panel's Phase 4 merge dedups by
exact `url` only, so two evidence entries with distinct raw urls but
the same `normalized_url` both survive. -/
def phase4CexA : Evidence :=
  { id := 10, url := "https://a.com/x", publisher := "A", title := "t",
    snippet := "s", published_at := none,
    normalized_url := "https://a.com/x", content_hash := "hash-1",
    provenance := "mcp-explorer" }

/-- Second Phase 4 counterexample entry: trailing-slash variant of the
same page. -/
def phase4CexB : Evidence :=
  { id := 11, url := "https://a.com/x/", publisher := "A", title := "t2",
    snippet := "s2", published_at := none,
    normalized_url := "https://a.com/x", content_hash := "hash-2",
    provenance := "agent_research" }

/-- C4 counterexample: after the Phase 4 merge both entries survive and
share a non-empty `normalized_url`, violating the claimed invariant. -/
theorem claim_C4_counterexample :
    phase4_merge_evidence [phase4CexA] [phase4CexB] = [phase4CexA, phase4CexB] ∧
    phase4CexA.normalized_url = phase4CexB.normalized_url ∧
    ¬ NoDupEvidence (phase4_merge_evidence [phase4CexA] [phase4CexB]) := by
  decide

/-- C4 (amended): the gather-and-persist path preserves the
deduplication invariant (no two evidence entries share a non-empty
`normalized_url` or a non-empty `content_hash`), given the incoming
claim satisfies it and the gathered sources carry content hashes (the
explorer always computes one); the Phase 4 merge of the agentic panel
guarantees only that no two entries share the exact raw `url`. -/
theorem claim_C4_evidence_dedup (claim_ev : List Evidence)
    (gathered : List ExplorerSource) (fresh : Nat)
    (hnd : NoDupEvidence claim_ev)
    (hch : ∀ src ∈ gathered, src.content_hash ≠ "") :
    (∀ ev2 newEv fresh2,
      _gather_and_persist_sources claim_ev gathered fresh = some (ev2, newEv, fresh2) →
      NoDupEvidence ev2) ∧
    (∀ l1 l2 : List Evidence,
      (phase4_merge_evidence l1 l2).Pairwise (fun a b => a.url ≠ b.url)) := by
  constructor
  · intro ev2 newEv fresh2 heq
    unfold _gather_and_persist_sources at heq
    by_cases hg : gathered = []
    · rw [if_pos hg] at heq
      obtain ⟨h1, -⟩ := Prod.mk.injEq _ _ _ _ ▸ Option.some.inj heq
      rw [← h1]
      exact hnd
    · rw [if_neg hg] at heq
      refine gatherLoop_nodup gathered _ _ fresh claim_ev [] hnd ?_ ?_ hch ev2 newEv fresh2 heq
      · intro e he hene
        exact List.mem_map_of_mem _ (List.mem_filter.mpr ⟨he, by simpa using hene⟩)
      · intro e he hene
        exact List.mem_map_of_mem _ (List.mem_filter.mpr ⟨he, by simpa using hene⟩)
  · intro l1 l2
    exact (phase4Dedup_distinct_urls (l1 ++ l2) []).1

/-- Concrete explorer source used by the C4 witness. -/
def witnessSource : ExplorerSource :=
  { title := "tC", url := "https://c.com/z", snippet := "sC",
    publisher := "C", domain := "c.com", published_at := none,
    normalized_url := "https://c.com/z", content_hash := "hC" }

/-- Witness for the amended C4 at concrete inputs. -/
theorem claim_C4_witness :
    NoDupEvidence witnessEvidenceA ∧
    (∀ src ∈ [witnessSource], src.content_hash ≠ "") ∧
    ((∀ ev2 newEv fresh2,
      _gather_and_persist_sources witnessEvidenceA [witnessSource] 7 = some (ev2, newEv, fresh2) →
      NoDupEvidence ev2) ∧
    (∀ l1 l2 : List Evidence,
      (phase4_merge_evidence l1 l2).Pairwise (fun a b => a.url ≠ b.url))) :=
  ⟨by decide, by decide,
    claim_C4_evidence_dedup witnessEvidenceA [witnessSource] 7 (by decide) (by decide)⟩

/-! ## Copy semantics of the cache (`verification.py`, C9)

`get_cached_verification` returns `record.model_copy()`, and pydantic's
`model_copy()` with no arguments is a *shallow* copy: the copy is a new
top-level object whose list-valued fields are the same list objects.
Value-level semantics cannot express this, so the functions involved
are modelled once more over an explicit heap: list objects and record
objects live at numbered references, and `model_copy` allocates a new
record cell sharing the list references. -/

namespace CopyModel

/-- A record object on the heap: scalar fields inline, list fields by
reference (`VerificationRecord.evidence_ids` / `.providers`). -/
structure RecordObj where
  id : Nat
  verdict : VerdictType
  evidence_ids_ref : Nat
  providers_ref : Nat
deriving Repr, DecidableEq

/-- The heap: list cells, record cells, and a fresh-reference supply. -/
structure Heap where
  lists : List (Nat × List Nat)
  records : List (Nat × RecordObj)
  nextRef : Nat
deriving Repr, DecidableEq

def lookupList (h : Heap) (r : Nat) : List Nat :=
  ((h.lists.find? (fun kv => kv.1 = r)).map (·.2)).getD []

def lookupRecord (h : Heap) (r : Nat) : Option RecordObj :=
  (h.records.find? (fun kv => kv.1 = r)).map (·.2)

/-- In-place update of a list object (shadowing write). -/
def setList (h : Heap) (r : Nat) (v : List Nat) : Heap :=
  { h with lists := (r, v) :: h.lists }

/-- Allocation of a new record cell. -/
def allocRecord (h : Heap) (obj : RecordObj) : Nat × Heap :=
  (h.nextRef,
   { h with records := (h.nextRef, obj) :: h.records, nextRef := h.nextRef + 1 })

/-- Reassignment of a record object's fields (shadowing write). -/
def setRecord (h : Heap) (r : Nat) (obj : RecordObj) : Heap :=
  { h with records := (r, obj) :: h.records }

/-- Pydantic `model_copy()` with no arguments: a new record cell with
the same field values — in particular the same list references. -/
def model_copy (h : Heap) (r : Nat) : Option (Nat × Heap) :=
  (lookupRecord h r).map (allocRecord h)

/-- `get_cached_verification` over the heap:
`record.model_copy() if record else None`. -/
def get_cached (h : Heap) (cache : List (String × Nat)) (key : String) :
    Option (Nat × Heap) :=
  ((cache.find? (fun kv => kv.1 = key)).map (·.2)).bind (model_copy h)

/-- `store_verification` over the heap: `_cache[key] = record.model_copy()`. -/
def store_cached (h : Heap) (cache : List (String × Nat)) (key : String)
    (ref : Nat) : List (String × Nat) × Heap :=
  match model_copy h ref with
  | some rh => ((key, rh.1) :: cache, rh.2)
  | none => (cache, h)

/-- Client-side `record.evidence_ids.append(x)`: in-place mutation of
the shared list object. -/
def appendEvidenceId (h : Heap) (ref : Nat) (x : Nat) : Heap :=
  match lookupRecord h ref with
  | some obj => setList h obj.evidence_ids_ref (lookupList h obj.evidence_ids_ref ++ [x])
  | none => h

/-- Client-side `record.verdict = v`: reassignment of a top-level field
of the record object. -/
def setVerdictField (h : Heap) (ref : Nat) (v : VerdictType) : Heap :=
  match lookupRecord h ref with
  | some obj => setRecord h ref { obj with verdict := v }
  | none => h

/-- The record contents a reader observes (list fields dereferenced). -/
structure RecordValue where
  id : Nat
  verdict : VerdictType
  evidence_ids : List Nat
deriving Repr, DecidableEq

def readRecord (h : Heap) (ref : Nat) : Option RecordValue :=
  (lookupRecord h ref).map fun obj =>
    { id := obj.id, verdict := obj.verdict,
      evidence_ids := lookupList h obj.evidence_ids_ref }

lemma lookupRecord_alloc_self (h : Heap) (obj : RecordObj) :
    lookupRecord (allocRecord h obj).2 (allocRecord h obj).1 = some obj := by
  unfold lookupRecord allocRecord
  simp [List.find?]

lemma lookupRecord_alloc_other (h : Heap) (obj : RecordObj) (r : Nat)
    (hr : r ≠ h.nextRef) :
    lookupRecord (allocRecord h obj).2 r = lookupRecord h r := by
  unfold lookupRecord allocRecord
  simp only [List.find?]
  rw [show (decide (h.nextRef = r)) = false by simp; omega]

lemma lookupRecord_setRecord_other (h : Heap) (r : Nat) (obj : RecordObj)
    (r' : Nat) (hne : r ≠ r') :
    lookupRecord (setRecord h r obj) r' = lookupRecord h r' := by
  unfold lookupRecord setRecord
  simp only [List.find?]
  rw [show (decide (r = r')) = false by simp [hne]]

/-- Concrete scenario: one record with evidence ids `[5]` stored under
key `"k"`. -/
def c9h0 : Heap := ⟨[(0, [5])], [], 1⟩

/-- The record object of the C9 scenario. -/
def c9obj : RecordObj := ⟨1, .SUPPORTS, 0, 0⟩

def c9alloc : Nat × Heap := allocRecord c9h0 c9obj

def c9store : List (String × Nat) × Heap := store_cached c9alloc.2 [] "k" c9alloc.1

def c9get1 : Option (Nat × Heap) := get_cached c9store.2 c9store.1 "k"

/-- The heap after appending `9` to the returned record's evidence ids. -/
def c9afterMut : Heap :=
  match c9get1 with
  | some rh => appendEvidenceId rh.2 rh.1 9
  | none => c9h0

def c9get2 : Option (Nat × Heap) := get_cached c9afterMut c9store.1 "k"

def c9read2 : Option RecordValue :=
  match c9get2 with
  | some rh => readRecord rh.2 rh.1
  | none => none

end CopyModel

/-- C9 counterexample: `model_copy()` is shallow, so appending to the
`evidence_ids` list of the record returned by `get_cached_verification`
mutates the cached entry — a subsequent get for the same key observes
`[5, 9]`, not the originally stored `[5]`. -/
theorem claim_C9_counterexample :
    (match CopyModel.c9get1 with
      | some rh => (CopyModel.readRecord rh.2 rh.1).map CopyModel.RecordValue.evidence_ids
      | none => none) = some [5] ∧
    CopyModel.c9read2 = some { id := 1, verdict := .SUPPORTS, evidence_ids := [5, 9] } ∧
    CopyModel.c9read2.map CopyModel.RecordValue.evidence_ids ≠ some [5] := by
  refine ⟨by decide, by decide, by decide⟩

/-- C9 (amended): `get_cached_verification` returns a *shallow* copy:
the returned record is a fresh top-level object, so reassigning one of
its fields (here `verdict`) leaves the cached entry unchanged and a
subsequent get observes the originally returned contents; only in-place
mutation of its list fields (the counterexample) reaches the cache. -/
theorem claim_C9_shallow_copy (h : CopyModel.Heap)
    (cache : List (String × Nat)) (key : String)
    (hwf : ∀ kv ∈ cache, kv.2 < h.nextRef) :
    ∀ r1 h1, CopyModel.get_cached h cache key = some (r1, h1) →
      ∀ v r2 h2,
        CopyModel.get_cached (CopyModel.setVerdictField h1 r1 v) cache key = some (r2, h2) →
        CopyModel.readRecord h2 r2 = CopyModel.readRecord h1 r1 := by
  intro r1 h1 hget v r2 h2 hget2
  unfold CopyModel.get_cached at hget hget2
  cases hfind : (cache.find? (fun kv => kv.1 = key)).map (·.2) with
  | none =>
    rw [hfind] at hget
    simp at hget
  | some cref =>
    rw [hfind] at hget hget2
    simp only [Option.some_bind] at hget hget2
    have hcref : cref < h.nextRef := by
      cases hf : cache.find? (fun kv => kv.1 = key) with
      | none => rw [hf] at hfind; simp at hfind
      | some kv =>
        rw [hf] at hfind
        have : kv.2 = cref := by simpa using hfind
        rw [← this]
        exact hwf kv (List.mem_of_find?_eq_some hf)
    unfold CopyModel.model_copy at hget hget2
    cases hrec : CopyModel.lookupRecord h cref with
    | none =>
      rw [hrec] at hget
      simp at hget
    | some obj =>
      rw [hrec] at hget
      simp only [Option.map_some'] at hget
      have hpair := Option.some.inj hget
      have hr1 : (CopyModel.allocRecord h obj).1 = r1 := congrArg Prod.fst hpair
      have hh1 : (CopyModel.allocRecord h obj).2 = h1 := congrArg Prod.snd hpair
      -- the copy returned by the first get sits at the fresh ref
      have hlook1 : CopyModel.lookupRecord h1 r1 = some obj := by
        rw [← hh1, ← hr1]
        exact CopyModel.lookupRecord_alloc_self h obj
      -- the field reassignment shadows only the fresh ref
      have hmut : CopyModel.setVerdictField h1 r1 v
          = CopyModel.setRecord h1 r1 { obj with verdict := v } := by
        unfold CopyModel.setVerdictField
        rw [hlook1]
      have hlookc : CopyModel.lookupRecord (CopyModel.setVerdictField h1 r1 v) cref
          = some obj := by
        rw [hmut, CopyModel.lookupRecord_setRecord_other h1 r1 _ cref
          (by rw [← hr1]; unfold CopyModel.allocRecord; simp; omega),
          ← hh1, CopyModel.lookupRecord_alloc_other h obj cref (by simp; omega), hrec]
      rw [hlookc] at hget2
      simp only [Option.map_some'] at hget2
      have hpair2 := Option.some.inj hget2
      have hr2 : (CopyModel.allocRecord (CopyModel.setVerdictField h1 r1 v) obj).1 = r2 :=
        congrArg Prod.fst hpair2
      have hh2 : (CopyModel.allocRecord (CopyModel.setVerdictField h1 r1 v) obj).2 = h2 :=
        congrArg Prod.snd hpair2
      have hlook2 : CopyModel.lookupRecord h2 r2 = some obj := by
        rw [← hh2, ← hr2]
        exact CopyModel.lookupRecord_alloc_self _ obj
      have hlists2 : h2.lists = h.lists := by
        rw [← hh2]
        unfold CopyModel.allocRecord
        rw [hmut]
        unfold CopyModel.setRecord
        rw [← hh1]
        rfl
      have hlists1 : h1.lists = h.lists := by
        rw [← hh1]
        rfl
      unfold CopyModel.readRecord
      rw [hlook1, hlook2]
      simp only [Option.map_some']
      unfold CopyModel.lookupList
      rw [hlists1, hlists2]

/-- Witness for the amended C9 at the concrete stored-record scenario. -/
theorem claim_C9_witness :
    (∀ kv ∈ CopyModel.c9store.1, kv.2 < CopyModel.c9store.2.nextRef) ∧
    (∀ r1 h1, CopyModel.get_cached CopyModel.c9store.2 CopyModel.c9store.1 "k" = some (r1, h1) →
      ∀ v r2 h2,
        CopyModel.get_cached (CopyModel.setVerdictField h1 r1 v) CopyModel.c9store.1 "k"
          = some (r2, h2) →
        CopyModel.readRecord h2 r2 = CopyModel.readRecord h1 r1) :=
  ⟨by decide, claim_C9_shallow_copy CopyModel.c9store.2 CopyModel.c9store.1 "k" (by decide)⟩

/-! ## Provider adapter argument pipeline (`run_panel.py`,
`BaseProviderAdapter.evaluate` and helpers, C5) -/

/-- Python `str.strip()` (ASCII whitespace model). -/
def pyStrip (l : List Char) : List Char :=
  ((l.dropWhile isPySpace).reverse.dropWhile isPySpace).reverse

/-- The value found under `"confidence"`: absent (`None`), a number, or
something `float()` rejects. -/
inductive ConfValue where
  | absent | num (q : ℚ) | nonnum
deriving Repr, DecidableEq

/-- `run_panel._parse_confidence` with `default=0.5`: clamp numbers to
`[0, 1]`, otherwise the default. -/
def _parse_confidence : ConfValue → ℚ
  | .absent => 1/2
  | .num q => max 0 (min 1 q)
  | .nonnum => 1/2

/-- Last index at which `pat` occurs in `l` (Python `str.rfind`),
`none` when absent. -/
def rfindPat (pat l : List Char) : Option Nat :=
  ((List.range l.length).filter (fun i => (l.drop i).take pat.length = pat)).getLast?

/-- Last index of a character in `l` (for `rsplit(' ', 1)`). -/
def rfindChar (c : Char) (l : List Char) : Option Nat :=
  ((List.range l.length).filter (fun i => l.get? i = some c)).getLast?

/-- `run_panel._smart_truncate`: prefer the rightmost sentence ending
past 70% of the limit (`pos > max_length * 0.7`, exact at the call site
`max_length = 2000` where the float product is exactly `1400.0`), then
a word boundary, then a hard cut with `"..."`. -/
def _smart_truncate (text : String) (max_length : Nat) : String :=
  if text.length ≤ max_length then text
  else
    let tl := text.toList
    let truncated := tl.take max_length
    let qualify := fun (ending : List Char) =>
      match rfindPat ending truncated with
      | some p => if (7 : ℚ)/10 * max_length < p then p + 1 else 0
      | none => 0
    let bestEnd := max (max (qualify ['.', ' ']) (qualify ['!', ' '])) (qualify ['?', ' '])
    if 0 < bestEnd then String.mk (pyStrip (tl.take bestEnd))
    else
      match rfindChar ' ' truncated with
      | some j => String.mk (truncated.take j) ++ "..."
      | none => String.mk (tl.take (max_length - 3)) ++ "..."

/-- `run_panel._pad_argument`: short arguments get a deterministic
filler sentence; already-long ones are re-truncated at 2000. -/
def _pad_argument (text : String) (argument_type : String) : String :=
  if 50 ≤ text.length then _smart_truncate text 2000
  else
    let filler := " This " ++ argument_type
      ++ " argument includes analysis of available evidence "
      ++ "with explicit citation of source identifiers for transparency."
    let combined :=
      (if text = "" then "No " ++ argument_type ++ " argument provided." else text) ++ filler
    if 50 ≤ combined.length then _smart_truncate combined 2000
    else String.mk (combined.toList ++ List.replicate (50 - combined.length) ' ')

/-- `run_panel._fallback_argument` over the prompt's claim text and
evidence count. -/
def _fallback_argument (provider_id model : String) (evidence_count : Nat)
    (claim_text : String) (argument_type : String) : String :=
  if argument_type = "approval" then
    provider_id ++ " (" ++ model ++ ") fallback approval argument. Analyzing "
      ++ toString evidence_count ++ " evidence item(s) for potential support of: "
      ++ claim_text ++ ". This argument is generated locally due to incomplete provider response."
  else
    provider_id ++ " (" ++ model ++ ") fallback refusal argument. Analyzing "
      ++ toString evidence_count ++ " evidence item(s) for potential refutation of: "
      ++ claim_text ++ ". This argument is generated locally due to incomplete provider response."

def isHexDigitChar (c : Char) : Bool := (UrlPy.hexVal c).isSome

/-- The 8-4-4-4-12 hex shape of a UUID string. -/
def isUuid36 (u : List Char) : Bool :=
  u.length = 36
    && (u.take 8).all isHexDigitChar
    && u.get? 8 = some '-'
    && ((u.drop 9).take 4).all isHexDigitChar
    && u.get? 13 = some '-'
    && ((u.drop 14).take 4).all isHexDigitChar
    && u.get? 18 = some '-'
    && ((u.drop 19).take 4).all isHexDigitChar
    && u.get? 23 = some '-'
    && ((u.drop 24).take 12).all isHexDigitChar

/-- Match of `\s*\(evidence_id:\s*[a-fA-F0-9-]+\)` at the head of `l`
(length of the match).  `\s*` is greedy and `(` is not whitespace, so
the maximal whitespace run is the only candidate. -/
def matchEvidenceIdMarker (l : List Char) : Option Nat :=
  let ws := (l.takeWhile isPySpace).length
  let rest := l.drop ws
  if rest.take 13 = "(evidence_id:".toList then
    let rest2 := rest.drop 13
    let ws2 := (rest2.takeWhile isPySpace).length
    let rest3 := rest2.drop ws2
    let idlen := (rest3.takeWhile (fun c => isHexDigitChar c || c = '-')).length
    if 1 ≤ idlen ∧ (rest3.drop idlen).take 1 = [')'] then
      some (ws + 13 + ws2 + idlen + 1)
    else none
  else none

/-- Match of `\s*\(<uuid>\)` at the head of `l` (length of the match). -/
def matchUuidMarker (l : List Char) : Option Nat :=
  let ws := (l.takeWhile isPySpace).length
  let rest := l.drop ws
  if rest.take 1 = ['('] ∧ isUuid36 ((rest.drop 1).take 36)
      ∧ (rest.drop 37).take 1 = [')'] then
    some (ws + 38)
  else none

/-- `re.sub(pattern, "", s)` driver: leftmost non-overlapping matches
removed (every pattern here matches at least one character, so fuel
equal to the length suffices). -/
def subScan (tryMatch : List Char → Option Nat) : Nat → List Char → List Char
  | 0, _ => []
  | _, [] => []
  | fuel + 1, l =>
    match tryMatch l with
    | some k => subScan tryMatch fuel (l.drop k)
    | none =>
      match l with
      | [] => []
      | c :: rest => c :: subScan tryMatch fuel rest

def reSubDel (tryMatch : List Char → Option Nat) (l : List Char) : List Char :=
  subScan tryMatch l.length l

lemma dropWhile_length_le (p : Char → Bool) :
    ∀ l : List Char, (l.dropWhile p).length ≤ l.length := by
  intro l
  induction l with
  | nil => simp
  | cons a t ih =>
    by_cases h : p a
    · simp only [List.dropWhile, h, List.length_cons]
      omega
    · simp only [List.dropWhile, h, Bool.false_eq_true, if_false]
      exact le_refl _

/-- Fuelled worker for `collapseWs`; fuel ≥ length suffices since the
scan consumes at least one character per step. -/
def collapseWsGo : Nat → List Char → List Char
  | 0, _ => []
  | _, [] => []
  | fuel + 1, c :: rest =>
    if isPySpace c then
      ' ' :: collapseWsGo fuel (rest.dropWhile isPySpace)
    else c :: collapseWsGo fuel rest

/-- Collapse whitespace runs to single spaces (`re.sub(r"\s+", " ", s)`). -/
def collapseWs (l : List Char) : List Char := collapseWsGo l.length l

/-- `run_panel._clean_argument_text`: remove both citation-marker
formats, collapse whitespace, strip. -/
def _clean_argument_text (argument : String) : String :=
  let s1 := reSubDel matchEvidenceIdMarker argument.toList
  let s2 := reSubDel matchUuidMarker s1
  String.mk (pyStrip (collapseWs s2))

/-- One provider argument object as extracted from the parsed payload
(`parsed.get("approval_argument", {})` gives `none` ↦ all defaults). -/
structure ArgPayload where
  argument : String
  evidence_ids : List String
  confidence : ConfValue
deriving Repr, DecidableEq

/-- The parsed provider payload (`_ensure_payload_dict` output). -/
structure ProviderPayload where
  approval_argument : Option ArgPayload
  refusal_argument : Option ArgPayload
deriving Repr, DecidableEq

def defaultArgPayload : ArgPayload := ⟨"", [], .absent⟩

def dedupNat : List Nat → List Nat → List Nat
  | [], _ => []
  | x :: rest, seen =>
    if x ∈ seen then dedupNat rest seen else x :: dedupNat rest (x :: seen)

/-- `run_panel._map_citations`: map each non-empty string through the
evidence lookup (insertion order), drop unknowns, dedupe preserving
order.  (The `isinstance(value, UUID)` branch does not arise for parsed
JSON payloads, whose values are strings.) -/
def _map_citations (values : List String) (lookup : List (String × Nat)) : List Nat :=
  let mapped := values.filterMap (fun v =>
    if v = "" then none else (lookup.find? (fun kv => kv.1 = v)).map (·.2))
  dedupNat mapped []

/-- The pydantic validation of `ArgumentWithEvidence`
(`min_length=20, max_length=2000`, `0 ≤ confidence ≤ 1`); `none` models
the `ValidationError` raised by the constructor. -/
def mkArgumentWithEvidence (argument : String) (ids : List Nat) (confidence : ℚ) :
    Option ArgumentWithEvidence :=
  if 20 ≤ argument.length ∧ argument.length ≤ 2000
      ∧ 0 ≤ confidence ∧ confidence ≤ 1 then
    some ⟨argument, ids, confidence⟩
  else none

/-- Assemble the verdict from the two validated arguments. -/
def finishVerdict (provider_id model : String)
    (a r : Option ArgumentWithEvidence) : Option PanelModelVerdict :=
  match a, r with
  | some aa, some rr =>
    some { provider_id := provider_id, model := model,
           approval_argument := aa, refusal_argument := rr, failed := false }
  | _, _ => none

/-- The length-enforcement step of `evaluate`: truncate above 2000,
pad below 50. -/
def enforceLength (arg : String) (argument_type : String) : String :=
  if 2000 < arg.length then _smart_truncate arg 2000
  else if arg.length < 50 then _pad_argument arg argument_type
  else arg

/-- `BaseProviderAdapter.evaluate` after `_ensure_payload_dict`, for
one call: extract each argument (falling back when empty), enforce the
length bounds, map citations, parse the confidence, strip citation
markers for display, and construct the verdict (pydantic validation as
`Option`).  The citation-link extraction (`_extract_citation_links`)
only fills the `citation_links` field, which no claim reads, and is not
modelled. -/
def adapter_evaluate (provider_id model : String) (claim_text : String)
    (evidence_count : Nat) (payload : ProviderPayload)
    (lookup : List (String × Nat)) : Option PanelModelVerdict :=
  let ad := payload.approval_argument.getD defaultArgPayload
  let approval_arg0 := if ad.argument = "" then
      _fallback_argument provider_id model evidence_count claim_text "approval"
    else ad.argument
  let approval_arg := enforceLength approval_arg0 "approval"
  let approval_evidence := _map_citations ad.evidence_ids lookup
  let approval_confidence := _parse_confidence ad.confidence
  let approval_arg_clean := _clean_argument_text approval_arg
  let rd := payload.refusal_argument.getD defaultArgPayload
  let refusal_arg0 := if rd.argument = "" then
      _fallback_argument provider_id model evidence_count claim_text "refusal"
    else rd.argument
  let refusal_arg := enforceLength refusal_arg0 "refusal"
  let refusal_evidence := _map_citations rd.evidence_ids lookup
  let refusal_confidence := _parse_confidence rd.confidence
  let refusal_arg_clean := _clean_argument_text refusal_arg
  finishVerdict provider_id model
    (mkArgumentWithEvidence approval_arg_clean approval_evidence approval_confidence)
    (mkArgumentWithEvidence refusal_arg_clean refusal_evidence refusal_confidence)

lemma parse_confidence_bounds (v : ConfValue) :
    0 ≤ _parse_confidence v ∧ _parse_confidence v ≤ 1 := by
  cases v with
  | absent => unfold _parse_confidence; norm_num
  | nonnum => unfold _parse_confidence; norm_num
  | num q =>
    unfold _parse_confidence
    constructor
    · exact le_max_left 0 _
    · apply max_le
      · norm_num
      · exact min_le_left 1 q

lemma mkArgumentWithEvidence_bounds (arg : String) (ids : List Nat) (conf : ℚ)
    (a : ArgumentWithEvidence) (h : mkArgumentWithEvidence arg ids conf = some a) :
    20 ≤ a.argument.length ∧ a.argument.length ≤ 2000
      ∧ 0 ≤ a.confidence ∧ a.confidence ≤ 1 := by
  unfold mkArgumentWithEvidence at h
  by_cases hc : 20 ≤ arg.length ∧ arg.length ≤ 2000 ∧ 0 ≤ conf ∧ conf ≤ 1
  · rw [if_pos hc] at h
    obtain rfl : ({ argument := arg, evidence_ids := ids, confidence := conf } :
        ArgumentWithEvidence) = a := Option.some.inj h
    exact ⟨hc.1, hc.2.1, hc.2.2.1, hc.2.2.2⟩
  · rw [if_neg hc] at h
    simp at h

lemma finishVerdict_some (pid model : String) (a r : Option ArgumentWithEvidence)
    (v : PanelModelVerdict) (h : finishVerdict pid model a r = some v) :
    ∃ aa rr, a = some aa ∧ r = some rr ∧
      v = { provider_id := pid, model := model, approval_argument := aa,
            refusal_argument := rr, failed := false } := by
  cases a with
  | none => cases r <;> simp [finishVerdict] at h
  | some aa =>
    cases r with
    | none => simp [finishVerdict] at h
    | some rr =>
      refine ⟨aa, rr, rfl, rfl, ?_⟩
      unfold finishVerdict at h
      exact (Option.some.inj h).symm

lemma smart_truncate_of_le (s : String) (m : Nat) (h : s.length ≤ m) :
    _smart_truncate s m = s := by
  unfold _smart_truncate
  rw [if_pos h]

set_option maxRecDepth 10000 in
lemma pad_argument_min_approval (t : String) (h : t.length < 50) :
    50 ≤ (_pad_argument t "approval").length := by
  unfold _pad_argument
  rw [if_neg (by omega)]
  by_cases ht : t = ""
  · subst ht
    decide
  · simp only [if_neg ht]
    have hfl : (" This " ++ "approval"
        ++ " argument includes analysis of available evidence "
        ++ "with explicit citation of source identifiers for transparency.").length
        = 126 := by decide
    have hcomb : (t ++ (" This " ++ "approval"
        ++ " argument includes analysis of available evidence "
        ++ "with explicit citation of source identifiers for transparency.")).length
        = t.length + 126 := by
      rw [String.length_append, hfl]
    rw [if_pos (by omega), smart_truncate_of_le _ _ (by omega), hcomb]
    omega

set_option maxRecDepth 10000 in
lemma pad_argument_min_refusal (t : String) (h : t.length < 50) :
    50 ≤ (_pad_argument t "refusal").length := by
  unfold _pad_argument
  rw [if_neg (by omega)]
  by_cases ht : t = ""
  · subst ht
    decide
  · simp only [if_neg ht]
    have hfl : (" This " ++ "refusal"
        ++ " argument includes analysis of available evidence "
        ++ "with explicit citation of source identifiers for transparency.").length
        = 125 := by decide
    have hcomb : (t ++ (" This " ++ "refusal"
        ++ " argument includes analysis of available evidence "
        ++ "with explicit citation of source identifiers for transparency.")).length
        = t.length + 125 := by
      rw [String.length_append, hfl]
    rw [if_pos (by omega), smart_truncate_of_le _ _ (by omega), hcomb]
    omega

/-- C5 counterexample payload: a 69-character approval argument whose
tail is a citation marker, so the displayed argument shrinks below 50
after marker cleaning. -/
def c5Payload : ProviderPayload :=
  { approval_argument := some
      { argument := "aaaaaaaaaaaaaaaaaaaaaaaaaaaaaa (11111111-1111-1111-1111-111111111111)",
        evidence_ids := ["e1"], confidence := .num (mkRat 1 2) },
    refusal_argument := some
      { argument := String.mk (List.replicate 60 'r'),
        evidence_ids := [], confidence := .num (mkRat 1 2) } }

set_option maxRecDepth 10000 in
/-- C5 is false as stated: `evaluate` enforces the 50-character minimum
*before* stripping citation markers, so a successful (non-failed)
verdict can carry a final approval argument of 30 characters. -/
theorem claim_C5_counterexample :
    ((adapter_evaluate "openai:gpt-4o" "gpt-4o" "crime is rising" 2 c5Payload
        [("e1", 42)]).map
      (fun v => (v.approval_argument.argument.length, v.failed))) = some (30, false) ∧
    30 < 50 := by
  refine ⟨by decide, by decide⟩

/-- C5 (amended): every `PanelModelVerdict` returned by a successful
adapter `evaluate` call is non-failed, has both argument texts with
final length between 20 and 2000 (the pydantic bounds; a text outside
them makes the constructor raise instead of returning), and has both
confidences clamped into `[0, 1]`; the 50-character minimum holds for
the argument *before* citation-marker cleaning (in particular the
padding helper always returns at least 50 characters). -/
theorem claim_C5_argument_bounds (pid model claim_text : String) (ec : Nat)
    (payload : ProviderPayload) (lookup : List (String × Nat))
    (v : PanelModelVerdict)
    (h : adapter_evaluate pid model claim_text ec payload lookup = some v) :
    v.failed = false ∧
    (20 ≤ v.approval_argument.argument.length ∧ v.approval_argument.argument.length ≤ 2000) ∧
    (20 ≤ v.refusal_argument.argument.length ∧ v.refusal_argument.argument.length ≤ 2000) ∧
    (0 ≤ v.approval_argument.confidence ∧ v.approval_argument.confidence ≤ 1) ∧
    (0 ≤ v.refusal_argument.confidence ∧ v.refusal_argument.confidence ≤ 1) ∧
    (∀ t : String, t.length < 50 →
      50 ≤ (_pad_argument t "approval").length ∧ 50 ≤ (_pad_argument t "refusal").length) := by
  simp only [adapter_evaluate] at h
  obtain ⟨aa, rr, ha, hr, hv⟩ := finishVerdict_some _ _ _ _ _ h
  obtain ⟨ha1, ha2, ha3, ha4⟩ := mkArgumentWithEvidence_bounds _ _ _ _ ha
  obtain ⟨hr1, hr2, hr3, hr4⟩ := mkArgumentWithEvidence_bounds _ _ _ _ hr
  subst hv
  exact ⟨rfl, ⟨ha1, ha2⟩, ⟨hr1, hr2⟩, ⟨ha3, ha4⟩, ⟨hr3, hr4⟩,
    fun t ht => ⟨pad_argument_min_approval t ht, pad_argument_min_refusal t ht⟩⟩

/-- The verdict the counterexample payload evaluates to. -/
def c5Verdict : PanelModelVerdict :=
  { provider_id := "openai:gpt-4o", model := "gpt-4o",
    approval_argument :=
      { argument := String.mk (List.replicate 30 'a'),
        evidence_ids := [42], confidence := mkRat 1 2 },
    refusal_argument :=
      { argument := String.mk (List.replicate 60 'r'),
        evidence_ids := [], confidence := mkRat 1 2 },
    failed := false }

set_option maxRecDepth 10000 in
/-- Witness for the amended C5 at a concrete payload. -/
theorem claim_C5_witness :
    adapter_evaluate "openai:gpt-4o" "gpt-4o" "crime is rising" 2 c5Payload
      [("e1", 42)] = some c5Verdict ∧
    (c5Verdict.failed = false ∧
    (20 ≤ c5Verdict.approval_argument.argument.length ∧
      c5Verdict.approval_argument.argument.length ≤ 2000) ∧
    (20 ≤ c5Verdict.refusal_argument.argument.length ∧
      c5Verdict.refusal_argument.argument.length ≤ 2000) ∧
    (0 ≤ c5Verdict.approval_argument.confidence ∧
      c5Verdict.approval_argument.confidence ≤ 1) ∧
    (0 ≤ c5Verdict.refusal_argument.confidence ∧
      c5Verdict.refusal_argument.confidence ≤ 1) ∧
    (∀ t : String, t.length < 50 →
      50 ≤ (_pad_argument t "approval").length ∧ 50 ≤ (_pad_argument t "refusal").length)) :=
  ⟨by decide,
    claim_C5_argument_bounds "openai:gpt-4o" "gpt-4o" "crime is rising" 2 c5Payload
      [("e1", 42)] c5Verdict (by decide)⟩

/-- C8: the claim states `normalize_url` is idempotent for every URL
string, and an idempotent canonical form is clearly the function's
intent (its output is the deduplication key).  The code is wrong on
bracketed IPv6 hosts: it rebuilds the netloc from `parsed.hostname`,
which strips the brackets, so `normalize_url "https://[::1]/x"` is
`"https://::1/x"` — an invalid URL whose re-normalization collapses the
host and yields `"https:///x"`, different from the first output. -/
theorem claim_C8_normalize_url_not_idempotent :
    UrlPy.normalize_url "https://[::1]/x" = some "https://::1/x" ∧
    UrlPy.normalize_url "https://::1/x" = some "https:///x" ∧
    (UrlPy.normalize_url "https://[::1]/x").bind UrlPy.normalize_url
      ≠ UrlPy.normalize_url "https://[::1]/x" := by
  refine ⟨by decide, by decide, by decide⟩

end Truce
